import Mathlib

/-!
Shallow embedding of the kite search-engine core (crates `kite` and
`kite_rocksdb`): byte codecs for stored fields and statistics, the RocksDB
merge operator, the schema registry, the query boost algebra, the
document-index operations and the two-batch ingestion pipeline.  Bytes are
modelled as `List Nat` (each element intended `< 256`), machine integers as
`Nat`/`Int` with explicit reduction modulo `2^w` where the code can wrap.
-/

set_option maxRecDepth 4096

namespace Kite

/-! ## Byte-level helpers (byteorder `BigEndian`/`LittleEndian` read/write) -/

/-- Big-endian interpretation of a byte list as an unsigned number. -/
def beBytesToNat (bs : List Nat) : Nat :=
  bs.foldl (fun a b => a * 256 + b) 0

/-- `w`-byte big-endian encoding of `n % 256^w`, most significant byte first. -/
def natToBeBytes : Nat → Nat → List Nat
  | 0, _ => []
  | w + 1, n => natToBeBytes w (n / 256) ++ [n % 256]

/-- Two's-complement reading of an unsigned 64-bit value as an `i64`. -/
def i64OfNat (n : Nat) : Int :=
  if n % 2 ^ 64 < 2 ^ 63 then (n % 2 ^ 64 : Int) else (n % 2 ^ 64 : Int) - 2 ^ 64

/-- `BigEndian::read_i64`: reads the first 8 bytes of the slice as a
big-endian two's-complement 64-bit integer (the Rust code panics when fewer
than 8 bytes are present; callers below only pass 8-byte values). -/
def beReadI64 (bs : List Nat) : Int :=
  i64OfNat (beBytesToNat (bs.take 8))

/-- `BigEndian::write_i64`: 8-byte big-endian two's-complement encoding. -/
def beWriteI64 (v : Int) : List Nat :=
  natToBeBytes 8 (v % 2 ^ 64).toNat

/-- `LittleEndian::write_i64`: 8-byte little-endian two's-complement encoding. -/
def leWriteI64 (v : Int) : List Nat :=
  (beWriteI64 v).reverse

/-- `BigEndian::write_u16`: 2-byte big-endian encoding of `n % 2^16`. -/
def beWriteU16 (n : Nat) : List Nat :=
  natToBeBytes 2 (n % 2 ^ 16)

/-- `LittleEndian::write_u16`: 2-byte little-endian encoding of `n % 2^16`. -/
def leWriteU16 (n : Nat) : List Nat :=
  (beWriteU16 n).reverse

/-- Wrap-around (two's-complement) reduction of an integer into the `i64`
range, modelling Rust release-mode `i64` overflow. -/
def wrapI64 (x : Int) : Int :=
  (x + 2 ^ 63) % 2 ^ 64 - 2 ^ 63

/-! ## The merge operator (`kite_rocksdb/src/lib.rs`, `merge_keys`) -/

/-- `merge_keys` from `kite_rocksdb/src/lib.rs`.  Dispatches on the first key
byte: `b'd'` (directory / posting list) and `b'x'` (deletion list) concatenate
the existing value with every operand; `b's'` (statistic) reads everything as
big-endian `i64` and sums with wrap-around; any other family keeps the last
operand.  The Rust code panics on an empty key or (in the default branch) an
empty operand list; those cases are mapped to `[]` here and excluded by
hypotheses in the theorems. -/
def merge_keys (key : List Nat) (existing_val : Option (List Nat))
    (operands : List (List Nat)) : List Nat :=
  match key.head? with
  | some b =>
    if b = 100 ∨ b = 120 then
      -- b'd' | b'x': concatenation of existing bytes and operand bytes
      existing_val.getD [] ++ operands.flatten
    else if b = 115 then
      -- b's': i64 accumulator, incremented operand by operand
      let start : Int := match existing_val with
        | some v => beReadI64 v
        | none => 0
      beWriteI64 (operands.foldl (fun value op => wrapI64 (value + beReadI64 op)) start)
    else
      (operands.getLast?).getD []
  | none => []

/-! ## Stored-field values (`kite/src/document.rs`) -/

/-- `FieldValue` from `kite/src/document.rs`.  A Rust `String` is modelled by
its UTF-8 byte sequence; a `chrono` `DateTime<Utc>` by its second timestamp
and sub-second nanoseconds. -/
inductive FieldValue where
  | string (bytes : List Nat)
  | integer (value : Int)
  | boolean (value : Bool)
  | datetime (timestamp : Int) (nanosecond : Nat)
  deriving DecidableEq, Repr

/-- `FieldValue::to_bytes`: strings keep their UTF-8 bytes; integers are
written **little-endian**; booleans one byte `'t'`/`'f'`; datetimes the
little-endian `i64` of `timestamp * 1_000_000 + nanosecond / 1000`. -/
def FieldValue.to_bytes : FieldValue → List Nat
  | .string bs => bs
  | .integer v => leWriteI64 v
  | .boolean true => [116]
  | .boolean false => [102]
  | .datetime ts ns => leWriteI64 (wrapI64 (ts * 1000000 + (ns / 1000 : Nat)))

/-- `FieldType` from `kite/src/schema.rs`. -/
inductive FieldType where
  | text
  | plainString
  | i64
  | boolean
  | dateTime
  deriving DecidableEq, Repr

/-- `StoredFieldReadError` from `kite_rocksdb/src/lib.rs` (the
`RocksDBReadError` variant carries a store failure and is not modelled). -/
inductive StoredFieldReadError where
  | invalidFieldRef
  | textFieldUTF8DecodeError (bytes : List Nat)
  | booleanFieldDecodeError (bytes : List Nat)
  | integerFieldValueSizeError (len : Nat)
  deriving DecidableEq, Repr

/-- UTF-8 validity of a byte sequence (what `str::from_utf8` accepts):
ASCII, and 2/3/4-byte sequences with the RFC 3629 range restrictions. -/
def validUtf8 : List Nat → Bool
  | [] => true
  | b1 :: rest =>
    if b1 ≤ 127 then
      validUtf8 rest
    else
      match rest with
      | b2 :: rest2 =>
        if 194 ≤ b1 ∧ b1 ≤ 223 then
          (128 ≤ b2 && b2 ≤ 191) && validUtf8 rest2
        else
          match rest2 with
          | b3 :: rest3 =>
            if b1 = 224 then
              (160 ≤ b2 && b2 ≤ 191) && (128 ≤ b3 && b3 ≤ 191) && validUtf8 rest3
            else if 225 ≤ b1 ∧ b1 ≤ 236 then
              (128 ≤ b2 && b2 ≤ 191) && (128 ≤ b3 && b3 ≤ 191) && validUtf8 rest3
            else if b1 = 237 then
              (128 ≤ b2 && b2 ≤ 159) && (128 ≤ b3 && b3 ≤ 191) && validUtf8 rest3
            else if 238 ≤ b1 ∧ b1 ≤ 239 then
              (128 ≤ b2 && b2 ≤ 191) && (128 ≤ b3 && b3 ≤ 191) && validUtf8 rest3
            else
              match rest3 with
              | b4 :: rest4 =>
                if b1 = 240 then
                  (144 ≤ b2 && b2 ≤ 191) && (128 ≤ b3 && b3 ≤ 191) &&
                    (128 ≤ b4 && b4 ≤ 191) && validUtf8 rest4
                else if 241 ≤ b1 ∧ b1 ≤ 243 then
                  (128 ≤ b2 && b2 ≤ 191) && (128 ≤ b3 && b3 ≤ 191) &&
                    (128 ≤ b4 && b4 ≤ 191) && validUtf8 rest4
                else if b1 = 244 then
                  (128 ≤ b2 && b2 ≤ 143) && (128 ≤ b3 && b3 ≤ 191) &&
                    (128 ≤ b4 && b4 ≤ 191) && validUtf8 rest4
                else
                  false
              | [] => false
          | [] => false
      | [] => false

/-- The decoding half of `RocksDBIndexReader::read_stored_field`
(`kite_rocksdb/src/lib.rs`): given the field's declared type and the raw
stored `"val"` bytes, reconstruct a `FieldValue`.  Text fields are validated
as UTF-8; integer fields are read **big-endian**; booleans match `[b't']` /
`[b'f']`; datetimes are read big-endian and split into seconds and
microseconds with Rust's truncating `/` and `%` (`Int.tdiv` / `Int.tmod`),
the nanoseconds then cast `as u32`. -/
def decodeStoredFieldValue (ft : FieldType) (value : List Nat) :
    Except StoredFieldReadError FieldValue :=
  match ft with
  | .text | .plainString =>
    if validUtf8 value then .ok (.string value)
    else .error (.textFieldUTF8DecodeError value)
  | .i64 =>
    if value.length ≠ 8 then .error (.integerFieldValueSizeError value.length)
    else .ok (.integer (beReadI64 value))
  | .boolean =>
    if value = [116] then .ok (.boolean true)
    else if value = [102] then .ok (.boolean false)
    else .error (.booleanFieldDecodeError value)
  | .dateTime =>
    if value.length ≠ 8 then .error (.integerFieldValueSizeError value.length)
    else
      let timestamp_with_micros := beReadI64 value
      let timestamp := timestamp_with_micros.tdiv 1000000
      let micros := timestamp_with_micros.tmod 1000000
      let nanos := micros * 1000
      .ok (.datetime timestamp ((nanos % 2 ^ 32).toNat))

/-! ## Schema registry (`kite/src/schema.rs`) -/

/-- `FieldInfo` from `kite/src/schema.rs`; `field_flags` is the `bitflags`
`u32` mask (`FIELD_INDEXED = 1`, `FIELD_STORED = 2`). -/
structure FieldInfo where
  name : String
  field_type : FieldType
  field_flags : Nat
  deriving DecidableEq, Repr

/-- `AddFieldError` from `kite/src/schema.rs`. -/
inductive AddFieldError where
  | fieldAlreadyExists (name : String)
  deriving DecidableEq, Repr

/-- `Schema` from `kite/src/schema.rs`: the `next_field_id` counter and the
two hash maps, modelled as association lists looked up at the first matching
entry.  A `FieldRef` is its `u32` ordinal. -/
structure Schema where
  next_field_id : Nat
  fields : List (Nat × FieldInfo)
  field_names : List (String × Nat)
  deriving DecidableEq, Repr

/-- First-match association-list lookup (the hash maps of the source never
hold a key twice, so shadowing is irrelevant for states they can reach). -/
def alGet {κ ν : Type} [DecidableEq κ] : List (κ × ν) → κ → Option ν
  | [], _ => none
  | (k', v) :: rest, k => if k' = k then some v else alGet rest k

/-- `Schema::new`. -/
def Schema.new : Schema :=
  { next_field_id := 1, fields := [], field_names := [] }

/-- `Schema::get_field_by_name`. -/
def Schema.get_field_by_name (s : Schema) (name : String) : Option Nat :=
  alGet s.field_names name

/-- `Schema::get` (via the `Deref` to the fields map). -/
def Schema.get (s : Schema) (field_ref : Nat) : Option FieldInfo :=
  alGet s.fields field_ref

/-- `Schema::add_field`: rejects an existing name before any mutation,
otherwise allocates `next_field_id` (via `new_field_ref`), bumps the counter
and inserts into both maps.  The counter is a `u32`, so the
`self.next_field_id += 1` increment wraps modulo `2^32` (release-mode
overflow semantics).  Functional rendering of `&mut self`: the returned
schema is the post-call state. -/
def Schema.add_field (s : Schema) (name : String) (field_type : FieldType)
    (field_flags : Nat) : Except AddFieldError Nat × Schema :=
  if (alGet s.field_names name).isSome then
    (.error (.fieldAlreadyExists name), s)
  else
    let field_ref := s.next_field_id
    (.ok field_ref,
      { next_field_id := (field_ref + 1) % 2 ^ 32,
        fields := (field_ref, ⟨name, field_type, field_flags⟩) :: s.fields,
        field_names := (name, field_ref) :: s.field_names })

/-- One `add_field` request. -/
structure AddFieldRequest where
  name : String
  field_type : FieldType
  field_flags : Nat

/-- A sequence of `add_field` calls, returning the final schema and the
`FieldRef`s of the successful calls in call order. -/
def Schema.add_fields : Schema → List AddFieldRequest → Schema × List Nat
  | s, [] => (s, [])
  | s, req :: rest =>
    let (res, s') := s.add_field req.name req.field_type req.field_flags
    let (s'', refs) := s'.add_fields rest
    (s'', match res with
      | .ok fr => fr :: refs
      | .error _ => refs)

/-! ## The stubbed key codec (`kite_rocksdb/src/utils/key.rs`) -/

/-- `StatisticKey` from `kite_rocksdb/src/utils/key.rs`: an enum with no
variants. -/
inductive StatisticKey : Type

/-- `Key` from `kite_rocksdb/src/utils/key.rs`.  `DocId` fields are
(segment, ordinal) pairs; numeric ids are `Nat`. -/
inductive Key where
  | metadata (name : String)
  | fieldDefinition (field_id : Nat)
  | activeSegment (segment_id : Nat)
  | documentFieldValue (doc_id : Nat × Nat) (field_id : Nat)
  | deletedDocument (doc_id : Nat × Nat)
  | termDictionary (term_dictionary_id : Nat)
  | termDirectory (field_id : Nat) (term_id : Nat) (segment_id : Nat)
  | uniqueKey (field_id : Nat) (key : String)
  | statistic (stat : StatisticKey)

/-- `Key::from_bytes` from `kite_rocksdb/src/utils/key.rs`: the body is
literally `None`, for every input. -/
def Key.from_bytes (_bytes : List Nat) : Option Key :=
  none

/-- `Key::to_bytes` from `kite_rocksdb/src/utils/key.rs`: the body is
`unimplemented!()`, which panics; a diverging byte producer is modelled as
`none`. -/
def Key.to_bytes (_k : Key) : Option (List Nat) :=
  none

/-! ## Query tree and boost (`kite/src/query/mod.rs`) -/

/-- Modelled from the spec: `TermScorer` (`kite/src/query/term_scorer.rs` is
not among the sources).  §4.9 describes it as BM25 with parameters `k1`, `b`
and a boost; `Query::add_boost` multiplies exactly the `boost` field.
Floating-point scores are idealized as rationals. -/
structure TermScorer where
  boost : ℚ
  k1 : ℚ
  b : ℚ
  deriving DecidableEq, Repr

/-- `MultiTermSelector` from `kite/src/query/multi_term_selector.rs`; the
prefix `String` is modelled by its bytes. -/
inductive MultiTermSelector where
  | Prefix (bytes : List Nat)
  deriving DecidableEq, Repr

/-- `Query` from `kite/src/query/mod.rs`.  `FieldRef`s are ordinals, a
`Term` is its byte sequence, `f32` scores are idealized as rationals. -/
inductive Query where
  | all (score : ℚ)
  | none
  | term (field : Nat) (term : List Nat) (scorer : TermScorer)
  | multiTerm (field : Nat) (term_selector : MultiTermSelector) (scorer : TermScorer)
  | conjunction (queries : List Query)
  | disjunction (queries : List Query)
  | disjunctionMax (queries : List Query)
  | filter (query : Query) (filter : Query)
  | exclude (query : Query) (exclude : Query)

mutual

/-- `Query::add_boost` from `kite/src/query/mod.rs`: `b == 1.0` is an early
return; otherwise leaves multiply their boost (the constant of `All`), and
combinators recurse into their children / their scored sub-query. -/
def Query.add_boost : Query → ℚ → Query
  | q, b =>
    if b = 1 then q
    else
      match q with
      | .all score => .all (score * b)
      | .none => .none
      | .term f t sc => .term f t { sc with boost := sc.boost * b }
      | .multiTerm f sel sc => .multiTerm f sel { sc with boost := sc.boost * b }
      | .conjunction qs => .conjunction (Query.add_boost_list qs b)
      | .disjunction qs => .disjunction (Query.add_boost_list qs b)
      | .disjunctionMax qs => .disjunctionMax (Query.add_boost_list qs b)
      | .filter q' f => .filter (q'.add_boost b) f
      | .exclude q' e => .exclude (q'.add_boost b) e

/-- The `for query in queries { query.add_boost(add_boost) }` loops. -/
def Query.add_boost_list : List Query → ℚ → List Query
  | [], _ => []
  | q :: rest, b => q.add_boost b :: Query.add_boost_list rest b

end

/-- `Query::boost`: calls `add_boost` and returns the query. -/
def Query.boost (q : Query) (b : ℚ) : Query :=
  q.add_boost b

/-! ## The store state and write batches

The RocksDB keyspace is modelled one key family per finite map.  Posting
(`d`) and deletion (`x`) values are abstracted from their concatenated
2-byte entries / bitmap serializations to the sequence of ordinals they
denote, and statistic (`s`) values to the summed integer; the byte-level
codecs (including their endianness) are treated by the definitions above.
Stored-field values are kept as raw bytes. -/

/-- `DocRef` (`DocRef::from_segment_ord(segment, ord)`): a `u32` segment id
and a `u16` ordinal. -/
structure DocRef where
  segment : Nat
  ord : Nat
  deriving DecidableEq, Repr

/-- The visible contents of the store, one association list per key
family. -/
structure Store where
  /-- Modelled from the spec: the persisted `.next_segment_id` counter that
  `SegmentManager::new_segment` allocates from (`segment.rs`'s manager is
  not among the sources). -/
  nextSegmentId : Nat
  /-- Segments whose `ACTIVE` key is present. -/
  active : List Nat
  /-- `POST(field, term, segment)` ↦ ordinals of its merged entries. -/
  post : List ((Nat × Nat × Nat) × List Nat)
  /-- `STORED(segment, ord, field, kind)` ↦ value bytes. -/
  stored : List ((Nat × Nat × Nat × List Nat) × List Nat)
  /-- `STAT(segment, name)` ↦ summed statistic. -/
  stat : List ((Nat × List Nat) × Int)
  /-- `DEL(segment)` ↦ ordinals of its merged entries. -/
  del : List (Nat × List Nat)
  /-- `PKEY(key)` ↦ document location. -/
  pkey : List (List Nat × DocRef)
  deriving DecidableEq, Repr

/-- The store with no keys at all. -/
def Store.empty : Store :=
  { nextSegmentId := 0, active := [], post := [], stored := [], stat := [],
    del := [], pkey := [] }

instance : Inhabited Store := ⟨Store.empty⟩

/-- One operation of a RocksDB write batch, as issued by the engine. -/
inductive StoreOp where
  | putActive (segment : Nat)
  | removeActive (segment : Nat)
  | mergePost (field : Nat) (term : Nat) (segment : Nat) (ordinal : Nat)
  | mergeStored (segment : Nat) (ord : Nat) (field : Nat) (kind : List Nat)
      (value : List Nat)
  | mergeStat (segment : Nat) (name : List Nat) (increment : Int)
  | mergeDel (segment : Nat) (ordinal : Nat)
  | putPkey (key : List Nat) (r : DocRef)
  deriving DecidableEq, Repr

/-- Effect of one batch operation on the visible store, with the merge
semantics of `merge_keys`: posting/deletion merges append their entry,
statistic merges add, and a stored-value merge on a key the engine writes at
most once behaves as a put (the default last-operand branch). -/
def Store.applyOp (st : Store) : StoreOp → Store
  | .putActive s => { st with active := s :: st.active }
  | .removeActive s => { st with active := st.active.filter (fun x => ¬ x = s) }
  | .mergePost f τ s o =>
    { st with post := ((f, τ, s), (alGet st.post (f, τ, s)).getD [] ++ [o]) :: st.post }
  | .mergeStored s o f kind v =>
    { st with stored := ((s, o, f, kind), v) :: st.stored }
  | .mergeStat s name inc =>
    { st with stat := ((s, name), (alGet st.stat (s, name)).getD 0 + inc) :: st.stat }
  | .mergeDel s o =>
    { st with del := (s, (alGet st.del s).getD [] ++ [o]) :: st.del }
  | .putPkey k r =>
    { st with pkey := (k, r) :: st.pkey }

/-- Atomic commit of a write batch: all operations become visible at once. -/
def Store.applyBatch (st : Store) (ops : List StoreOp) : Store :=
  ops.foldl Store.applyOp st

/-! ## Ingestion (`RocksDBIndexStore::insert_or_update_document`,
`kite_rocksdb/src/lib.rs`, and `DocumentIndexManager`,
`kite_rocksdb/src/document_index.rs`) -/

/-- ASCII bytes of a string. -/
def asciiBytes (s : String) : List Nat :=
  s.toList.map Char.toNat

/-- ASCII decimal digits of `n` (`to_string` on an integer). -/
def asciiDecimal (n : Nat) : List Nat :=
  (Nat.toDigits 10 n).map Char.toNat

/-- The `"val"` stored-value kind tag. -/
def kindVal : List Nat := [118, 97, 108]

/-- The `"len"` stored-value kind tag. -/
def kindLen : List Nat := [108, 101, 110]

/-- The `"tf<term_id>"` stored-value kind tag. -/
def kindTf (term : Nat) : List Nat :=
  [116, 102] ++ asciiDecimal term

/-- Modelled from the spec: the statistic name used by
`KeyBuilder::segment_stat_term_doc_frequency` (`key_builder.rs` is not among
the sources); §4.1 lists per-term doc frequency under `STAT`. -/
def statTermDocFrequency (field term : Nat) : List Nat :=
  asciiBytes "tdf" ++ asciiDecimal field ++ [46] ++ asciiDecimal term

/-- Modelled from the spec: the `total_field_docs` statistic name keyed by
field (`key_builder.rs` is not among the sources). -/
def statTotalFieldDocs (field : Nat) : List Nat :=
  asciiBytes "total_field_docs." ++ asciiDecimal field

/-- Modelled from the spec: the `total_field_tokens` statistic name keyed by
field (`key_builder.rs` is not among the sources). -/
def statTotalFieldTokens (field : Nat) : List Nat :=
  asciiBytes "total_field_tokens." ++ asciiDecimal field

/-- The distinct term ids of a token stream, first occurrences first (the
order in which the drained `term_frequencies` hash map is traversed is
unspecified in Rust; any enumeration of the distinct terms is faithful). -/
def distinctTerms : List Nat → List Nat
  | [] => []
  | t :: rest => t :: (distinctTerms rest).filter (fun u => ! (u == t))

/-- Largest `j ≤ k` with `j * j ≤ n` (0 when there is none but `0 * 0 ≤ n`
always holds).  Structural recursion so that concrete values reduce in the
kernel. -/
def sqrtAux (n : Nat) : Nat → Nat
  | 0 => 0
  | k + 1 => if (k + 1) * (k + 1) ≤ n then k + 1 else sqrtAux n k

/-- The integer square root `⌊√n⌋`, computed by descending search (proved
equal to `Nat.sqrt` below). -/
def natSqrt (n : Nat) : Nat :=
  sqrtAux n n

/-- The squashed one-byte field length: the Rust code computes
`((tokens as f64).sqrt() - 1.0) * 3.0`, caps values above `255.0` and casts
`as u8` (saturating truncation toward zero).  With the square root exact,
that is `clamp(⌊3·√tokens⌋ - 3, 0, 255)`, and `⌊3·√t⌋ = ⌊√(9·t)⌋`;
`Nat` subtraction provides the saturation at zero. -/
def fieldLengthByte (tokens : Nat) : Nat :=
  min 255 (natSqrt (9 * tokens) - 3)

/-- A document on the ingest side (`kite/src/document.rs` together with the
field-name-keyed shape consumed by `insert_or_update_document`).  The key is
its byte string.  Modelled from the spec for the token side: tokens are
resolved through the term dictionary (`term_dictionary.rs` is not among the
sources, §4.3 gives `get_or_create : term → TermId`), so an indexed field
carries the `TermId`s of its token stream in order. -/
structure Doc where
  key : List Nat
  indexedFields : List (String × List Nat)
  storedFields : List (String × FieldValue)

/-- The write-batch operations for the indexed fields of a document in
field order, or the first field name that is missing from the schema
(`insert_or_update_document` returns `FieldDoesntExist` there).  Per field:
one posting merge per token, then per distinct term a `"tf"` stored value
when the frequency is not 1 and a doc-frequency increment, then the `"len"`
byte when non-zero, then the two per-field statistics. -/
def indexedFieldOps (schema : Schema) (segment ord : Nat) :
    List (String × List Nat) → Except String (List StoreOp)
  | [] => .ok []
  | (name, tokens) :: rest =>
    match schema.get_field_by_name name with
    | Option.none => .error name
    | some fr =>
      let fieldTokenCount := tokens.length
      let dirOps := tokens.map (fun t => StoreOp.mergePost fr t segment ord)
      let tfOps := (distinctTerms tokens).flatMap (fun t =>
        let frequency := tokens.count t
        (if frequency ≠ 1 then
          [StoreOp.mergeStored segment ord fr (kindTf t) (beWriteI64 frequency)]
        else []) ++ [StoreOp.mergeStat segment (statTermDocFrequency fr t) 1])
      let lenOps :=
        if fieldLengthByte fieldTokenCount ≠ 0 then
          [StoreOp.mergeStored segment ord fr kindLen [fieldLengthByte fieldTokenCount]]
        else []
      let statOps := [StoreOp.mergeStat segment (statTotalFieldDocs fr) 1,
                      StoreOp.mergeStat segment (statTotalFieldTokens fr) fieldTokenCount]
      match indexedFieldOps schema segment ord rest with
      | .error e => .error e
      | .ok restOps => .ok (dirOps ++ tfOps ++ lenOps ++ statOps ++ restOps)

/-- The write-batch operations for the stored fields of a document: a field
name missing from the schema is silently skipped (the `None => continue`
branch), a known one writes its `"val"` bytes. -/
def storedFieldOps (schema : Schema) (segment ord : Nat) :
    List (String × FieldValue) → List StoreOp
  | [] => []
  | (name, value) :: rest =>
    match schema.get_field_by_name name with
    | Option.none => storedFieldOps schema segment ord rest
    | some fr =>
      StoreOp.mergeStored segment ord fr kindVal value.to_bytes ::
        storedFieldOps schema segment ord rest

/-- `DocumentIndexManager::delete_document_by_ref_unchecked`, at the
abstraction of this store model: merge the ordinal into `DEL(segment)` and
increment the `deleted_docs` statistic (the byte-level operands it really
emits are treated separately below). -/
def deleteDocumentByRefUncheckedOps (r : DocRef) : List StoreOp :=
  [StoreOp.mergeDel r.segment r.ord,
   StoreOp.mergeStat r.segment (asciiBytes "deleted_docs") 1]

/-- `DocumentIndexManager::insert_or_replace_key`: one write batch that puts
the new `PKEY` entry and, when the key previously pointed somewhere,
schedules that location's deletion in the same batch. -/
def insertOrReplaceKey (st : Store) (key : List Nat) (r : DocRef) : Store :=
  let previous := alGet st.pkey key
  let batch := StoreOp.putPkey key r ::
    (match previous with
     | some old => deleteDocumentByRefUncheckedOps old
     | Option.none => [])
  st.applyBatch batch

/-- Result of `insert_or_update_document`, carrying the store states a
snapshot can observe: on error the state after the aborted call, on success
the state after the segment batch (`mid`) and after the document-index batch
(`fin`). -/
inductive InsertResult where
  | fieldDoesntExist (name : String) (st : Store)
  | ok (mid fin : Store)
  deriving DecidableEq, Repr

/-- The error name of an insert result, if any. -/
def InsertResult.errorName : InsertResult → Option String
  | .fieldDoesntExist name _ => some name
  | .ok _ _ => none

/-- The store after the segment batch of a successful insert. -/
def InsertResult.midStore : InsertResult → Store
  | .fieldDoesntExist _ st => st
  | .ok mid _ => mid

/-- The final store of a successful insert. -/
def InsertResult.finStore : InsertResult → Store
  | .fieldDoesntExist _ st => st
  | .ok _ fin => fin

/-- `RocksDBIndexStore::insert_or_update_document`: allocate a fresh segment
(bumping the persisted counter), build one batch whose first operation sets
the segment's `ACTIVE` flag followed by the indexed-field, stored-field and
`total_docs` writes, commit it, and then update the document index in a
second, separate batch.  An unknown indexed field name aborts before the
first batch is committed. -/
def insertOrUpdateDocument (schema : Schema) (st : Store) (doc : Doc) :
    InsertResult :=
  let segment := st.nextSegmentId
  let st0 : Store := { st with nextSegmentId := segment + 1 }
  let ord := 0
  match indexedFieldOps schema segment ord doc.indexedFields with
  | .error name => .fieldDoesntExist name st0
  | .ok idxOps =>
    let batch1 := StoreOp.putActive segment :: idxOps
      ++ storedFieldOps schema segment ord doc.storedFields
      ++ [StoreOp.mergeStat segment (asciiBytes "total_docs") 1]
    let mid := st0.applyBatch batch1
    let fin := insertOrReplaceKey mid doc.key ⟨segment, ord⟩
    .ok mid fin

/-! ## Reading (`RocksDBIndexReader::read_stored_field` and query
visibility) -/

/-- `RocksDBIndexReader::read_stored_field`: resolve the field, fetch the
`"val"` stored bytes from the snapshot and decode them by the field's
declared type; a missing key is `Ok(None)`. -/
def readStoredField (schema : Schema) (st : Store) (field_ref : Nat)
    (r : DocRef) : Except StoredFieldReadError (Option FieldValue) :=
  match schema.get field_ref with
  | Option.none => .error .invalidFieldRef
  | some field_info =>
    match alGet st.stored (r.segment, r.ord, field_ref, kindVal) with
    | Option.none => .ok Option.none
    | some value => (decodeStoredFieldValue field_info.field_type value).map some

/-- Modelled from the spec: query visibility of a document to a single-term
search (`kite_rocksdb/src/search.rs` is not among the sources).  §4.9: a
term leaf materializes the matching ordinals from the posting list of each
active segment and the segment's deletion bitmap is subtracted; the
primary-key index is not consulted. -/
def Store.queryVisible (st : Store) (field term : Nat) (r : DocRef) : Prop :=
  r.segment ∈ st.active ∧
  r.ord ∈ (alGet st.post (field, term, r.segment)).getD [] ∧
  r.ord ∉ (alGet st.del r.segment).getD []

instance (st : Store) (field term : Nat) (r : DocRef) :
    Decidable (st.queryVisible field term r) := by
  unfold Store.queryVisible
  infer_instance

/-- A document is live for a key (spec §3, invariant 2): the primary-key
index maps the key to it, its segment is active, and its ordinal is not in
the segment's deletion list. -/
def Store.live (st : Store) (key : List Nat) (r : DocRef) : Prop :=
  alGet st.pkey key = some r ∧
  r.segment ∈ st.active ∧
  r.ord ∉ (alGet st.del r.segment).getD []

instance (st : Store) (key : List Nat) (r : DocRef) :
    Decidable (st.live key r) := by
  unfold Store.live
  infer_instance

/-! ## Merge commit (`DocumentIndexManager::commit_segment_merge`,
`kite_rocksdb/src/document_index.rs`) -/

/-- The destination deletion list `commit_segment_merge` computes under the
primary-key lock: every ordinal of every source segment's deletion list,
remapped through `doc_ref_mapping` (the Rust code unwraps the lookup; absent
entries are mapped to 0 here and excluded by hypotheses where they matter). -/
def mergedDeletionList (db : Store) (source_segments : List Nat)
    (mapping : List (DocRef × Nat)) : List Nat :=
  source_segments.flatMap (fun s =>
    ((alGet db.del s).getD []).map (fun o => (alGet mapping ⟨s, o⟩).getD 0))

/-- `DocumentIndexManager::commit_segment_merge`: extend the caller's batch
with a `PKEY` rewrite for every key whose location is in the remap domain,
write the compacted `DEL(dest)` with a separate unbatched `db.put`, then
commit the batch.  Returns the store as visible if the final commit fails
(`failed`) and if it succeeds (`committed`). -/
def commitSegmentMerge (db : Store) (write_batch : List StoreOp)
    (source_segments : List Nat) (dest_segment : Nat)
    (doc_ref_mapping : List (DocRef × Nat)) : Store × Store :=
  let keys_to_update := db.pkey.filter (fun p => (alGet doc_ref_mapping p.2).isSome)
  let pkeyOps := keys_to_update.map (fun p =>
    StoreOp.putPkey p.1 ⟨dest_segment, (alGet doc_ref_mapping p.2).getD 0⟩)
  let batch := write_batch ++ pkeyOps
  let deletion_list := mergedDeletionList db source_segments doc_ref_mapping
  let failed : Store := { db with del := (dest_segment, deletion_list) :: db.del }
  (failed, failed.applyBatch batch)

/-! ## Byte-level tombstone operands
(`DocumentIndexManager::delete_document_by_ref_unchecked`) -/

/-- The raw merge operands `delete_document_by_ref_unchecked` emits: the
ordinal for `DEL(segment)` written with `LittleEndian::write_u16`, and the
increment for `STAT(segment, deleted_docs)` written with
`LittleEndian::write_i64(1)`. -/
structure DeleteTombstone where
  delOperand : List Nat
  statOperand : List Nat
  deriving DecidableEq, Repr

/-- The operand bytes of the two tombstone merges for one document. -/
def deleteTombstoneOperands (r : DocRef) : DeleteTombstone :=
  { delOperand := leWriteU16 r.ord, statOperand := leWriteI64 1 }

/-- Equality of `Except` results is decidable componentwise (used to settle
concrete read results by evaluation). -/
instance {ε α : Type} [DecidableEq ε] [DecidableEq α] : DecidableEq (Except ε α) :=
  fun a b =>
    match a, b with
    | .ok x, .ok y => decidable_of_iff (x = y) (by simp)
    | .error x, .error y => decidable_of_iff (x = y) (by simp)
    | .ok _, .error _ => isFalse (by simp)
    | .error _, .ok _ => isFalse (by simp)

/-! # Theorems -/

/-! ## Arithmetic lemmas for the merge operator -/

theorem wrapI64_emod (x : Int) : wrapI64 x % 2 ^ 64 = x % 2 ^ 64 := by
  unfold wrapI64
  have h64 : (2 : Int) ^ 64 = 18446744073709551616 := by norm_num
  have h63 : (2 : Int) ^ 63 = 9223372036854775808 := by norm_num
  rw [h64, h63]
  omega

theorem foldl_wrapI64_emod (ops : List (List Nat)) (start : Int) :
    (ops.foldl (fun value op => wrapI64 (value + beReadI64 op)) start) % 2 ^ 64
      = (start + (ops.map beReadI64).sum) % 2 ^ 64 := by
  induction ops generalizing start with
  | nil => simp
  | cons op rest ih =>
    simp only [List.foldl_cons, List.map_cons, List.sum_cons]
    rw [ih]
    conv_rhs =>
      rw [← add_assoc, Int.add_emod, ← wrapI64_emod (start + beReadI64 op),
        ← Int.add_emod]

theorem beWriteI64_congr {x y : Int} (h : x % 2 ^ 64 = y % 2 ^ 64) :
    beWriteI64 x = beWriteI64 y := by
  unfold beWriteI64
  rw [h]

/-- **C4** (confirmed).  Reference definition of `merge_keys`: with a
non-empty key and operand sequence, the posting/deletion families (`b'd'`,
`b'x'`) return the existing bytes followed by all operand bytes in operand
order; the statistic family (`b's'`) returns the 8-byte big-endian encoding
of the sum of the existing value (0 when absent) and all operands; any other
family returns exactly the last operand. -/
theorem c4_merge_keys_reference (b : Nat) (rest : List Nat)
    (existing : Option (List Nat)) (ops : List (List Nat)) (hne : ops ≠ []) :
    ((b = 100 ∨ b = 120) →
      merge_keys (b :: rest) existing ops = existing.getD [] ++ ops.flatten) ∧
    (b = 115 →
      merge_keys (b :: rest) existing ops
        = beWriteI64 (existing.elim 0 beReadI64 + (ops.map beReadI64).sum)) ∧
    (¬(b = 100 ∨ b = 120 ∨ b = 115) →
      some (merge_keys (b :: rest) existing ops) = ops.getLast?) := by
  refine ⟨?_, ?_, ?_⟩
  · rintro (rfl | rfl) <;> simp [merge_keys]
  · rintro rfl
    simp only [merge_keys, List.head?_cons]
    norm_num
    cases existing with
    | none => simpa using beWriteI64_congr (foldl_wrapI64_emod ops 0)
    | some v => simpa using beWriteI64_congr (foldl_wrapI64_emod ops (beReadI64 v))
  · intro h
    have hdx : ¬(b = 100 ∨ b = 120) := fun hc => h (by tauto)
    have h3 : ¬b = 115 := fun hc => h (by tauto)
    simp only [merge_keys, List.head?_cons, if_neg hdx, if_neg h3,
      List.getLast?_eq_getLast ops hne, Option.getD_some]

/-- Witness for C4 at the statistic family: existing value 5, one operand 3. -/
theorem c4_merge_keys_reference_witness :
    ([beWriteI64 3] : List (List Nat)) ≠ [] ∧
    ((((115 : Nat) = 100 ∨ (115 : Nat) = 120) →
        merge_keys [115] (some (beWriteI64 5)) [beWriteI64 3]
          = (some (beWriteI64 5)).getD [] ++ [beWriteI64 3].flatten) ∧
      ((115 : Nat) = 115 →
        merge_keys [115] (some (beWriteI64 5)) [beWriteI64 3]
          = beWriteI64 ((some (beWriteI64 5)).elim 0 beReadI64
              + ([beWriteI64 3].map beReadI64).sum)) ∧
      (¬((115 : Nat) = 100 ∨ (115 : Nat) = 120 ∨ (115 : Nat) = 115) →
        some (merge_keys [115] (some (beWriteI64 5)) [beWriteI64 3])
          = [beWriteI64 3].getLast?)) :=
  ⟨by decide, c4_merge_keys_reference 115 [] (some (beWriteI64 5)) [beWriteI64 3] (by decide)⟩

/-- **C1** (code_bug).  The stored-field round trip is broken for integers:
`FieldValue::to_bytes` writes `Integer(1)` little-endian but
`read_stored_field` decodes big-endian, so after inserting a document whose
STORED `I64` field `"pk"` holds 1, the reader returns `Integer(2^56)`. -/
theorem c1_read_stored_field_big_endian_on_little_endian_write :
    readStoredField ((Schema.new).add_field "pk" FieldType.i64 2).2
        ((insertOrUpdateDocument ((Schema.new).add_field "pk" FieldType.i64 2).2
          Store.empty
          { key := [107], indexedFields := [],
            storedFields := [("pk", FieldValue.integer 1)] }).finStore)
        1 ⟨0, 0⟩
      = .ok (some (.integer 72057594037927936)) ∧
    decodeStoredFieldValue FieldType.i64 ((FieldValue.integer 1).to_bytes)
      = .ok (.integer 72057594037927936) ∧
    (72057594037927936 : Int) ≠ 1 := by
  decide

/-- **C3** (code_bug).  `delete_document_by_ref_unchecked` writes its
tombstones little-endian: the `DEL` operand for ordinal 1 is `[1, 0]`, not
the big-endian `[0, 1]`, and merging its statistic operand
(`LittleEndian::write_i64(1)`) into a zero statistic yields a value that
decodes big-endian to `2^56`, not 1. -/
theorem c3_delete_tombstone_little_endian :
    (deleteTombstoneOperands ⟨7, 1⟩).delOperand = [1, 0] ∧
    beWriteU16 1 = [0, 1] ∧
    (deleteTombstoneOperands ⟨7, 1⟩).delOperand ≠ beWriteU16 1 ∧
    beReadI64 (merge_keys [115] (some (beWriteI64 0))
        [(deleteTombstoneOperands ⟨7, 1⟩).statOperand]) = 2 ^ 56 ∧
    ((2 : Int) ^ 56 ≠ 1) := by
  decide

/-- **C7** (code_bug).  The key codec of `utils/key.rs` is a stub:
`Key::from_bytes` returns `None` on every input and `Key::to_bytes` is
`unimplemented!()`, so no key round-trips. -/
theorem c7_key_codec_stub_never_decodes :
    ∀ (bytes : List Nat) (k : Key),
      Key.from_bytes bytes = Option.none ∧ Key.to_bytes k = Option.none :=
  fun _ _ => ⟨rfl, rfl⟩

/-- Counterexample to **C6**: with one source segment holding one deleted
document, a failed final commit leaves the compacted `DEL(dest)` visible
(written by a separate `db.put`) while the `ACTIVE` swap and `PKEY` rewrite
of the batch are not. -/
theorem c6_failed_commit_leaves_del_dest :
    alGet (commitSegmentMerge
        { nextSegmentId := 2, active := [1], post := [], stored := [], stat := [],
          del := [(1, [0])], pkey := [([107], ⟨1, 0⟩)] }
        [.putActive 2, .removeActive 1] [1] 2 [(⟨1, 0⟩, 0)]).1.del 2 = some [0] ∧
    (commitSegmentMerge
        { nextSegmentId := 2, active := [1], post := [], stored := [], stat := [],
          del := [(1, [0])], pkey := [([107], ⟨1, 0⟩)] }
        [.putActive 2, .removeActive 1] [1] 2 [(⟨1, 0⟩, 0)]).1.active = [1] ∧
    alGet (commitSegmentMerge
        { nextSegmentId := 2, active := [1], post := [], stored := [], stat := [],
          del := [(1, [0])], pkey := [([107], ⟨1, 0⟩)] }
        [.putActive 2, .removeActive 1] [1] 2 [(⟨1, 0⟩, 0)]).1.pkey [107]
      = some ⟨1, 0⟩ ∧
    (commitSegmentMerge
        { nextSegmentId := 2, active := [1], post := [], stored := [], stat := [],
          del := [(1, [0])], pkey := [([107], ⟨1, 0⟩)] }
        [.putActive 2, .removeActive 1] [1] 2 [(⟨1, 0⟩, 0)]).2.active = [2] ∧
    alGet (commitSegmentMerge
        { nextSegmentId := 2, active := [1], post := [], stored := [], stat := [],
          del := [(1, [0])], pkey := [([107], ⟨1, 0⟩)] }
        [.putActive 2, .removeActive 1] [1] 2 [(⟨1, 0⟩, 0)]).2.pkey [107]
      = some ⟨2, 0⟩ := by
  decide

/-- **C6** (corrected).  In `commit_segment_merge` the `PKEY` rewrites and
the caller's `ACTIVE` swap are committed in one atomic batch, but the
compacted `DEL(dest)` is written by a separate unbatched `db.put` before the
commit: if the final commit fails, every family of the batch is unchanged
while `DEL(dest)` is already visible. -/
theorem c6_del_dest_written_outside_batch (db : Store)
    (write_batch : List StoreOp) (sources : List Nat) (dest : Nat)
    (mapping : List (DocRef × Nat)) :
    (commitSegmentMerge db write_batch sources dest mapping).1.active = db.active ∧
    (commitSegmentMerge db write_batch sources dest mapping).1.pkey = db.pkey ∧
    (commitSegmentMerge db write_batch sources dest mapping).1.post = db.post ∧
    (commitSegmentMerge db write_batch sources dest mapping).1.stored = db.stored ∧
    (commitSegmentMerge db write_batch sources dest mapping).1.stat = db.stat ∧
    alGet (commitSegmentMerge db write_batch sources dest mapping).1.del dest
      = some (mergedDeletionList db sources mapping) := by
  refine ⟨rfl, rfl, rfl, rfl, rfl, ?_⟩
  simp [commitSegmentMerge, alGet]

/-- Counterexample to **C5**: a document whose only field is a stored field
with a name absent from the (empty) schema is inserted successfully — the
`None => continue` branch skips it instead of returning `FieldDoesntExist` —
and its segment's `ACTIVE` key becomes visible. -/
theorem c5_unknown_stored_field_not_rejected :
    (insertOrUpdateDocument Schema.new Store.empty
        { key := [107], indexedFields := [],
          storedFields := [("pk", FieldValue.integer 1)] }).errorName
      = Option.none ∧
    0 ∈ (insertOrUpdateDocument Schema.new Store.empty
        { key := [107], indexedFields := [],
          storedFields := [("pk", FieldValue.integer 1)] }).midStore.active := by
  decide

/-- Counterexample to **C2**: replacing the document of key `k` is done in
two separate batches; after the first (segment) batch and before the second
(document-index) batch, a snapshot sees BOTH the old document `(1,0)` and
the new document `(2,0)` as matches of a term query, while the primary key
still points at the old one. -/
theorem c2_intermediate_state_shows_both :
    (insertOrUpdateDocument ((Schema.new).add_field "title" FieldType.text 1).2
        { nextSegmentId := 2, active := [1], post := [((1, 1, 1), [0])],
          stored := [], stat := [], del := [], pkey := [([107], ⟨1, 0⟩)] }
        { key := [107], indexedFields := [("title", [1])],
          storedFields := [] }).midStore.queryVisible 1 1 ⟨1, 0⟩ ∧
    (insertOrUpdateDocument ((Schema.new).add_field "title" FieldType.text 1).2
        { nextSegmentId := 2, active := [1], post := [((1, 1, 1), [0])],
          stored := [], stat := [], del := [], pkey := [([107], ⟨1, 0⟩)] }
        { key := [107], indexedFields := [("title", [1])],
          storedFields := [] }).midStore.queryVisible 1 1 ⟨2, 0⟩ ∧
    ((⟨1, 0⟩ : DocRef) ≠ ⟨2, 0⟩) ∧
    alGet (insertOrUpdateDocument ((Schema.new).add_field "title" FieldType.text 1).2
        { nextSegmentId := 2, active := [1], post := [((1, 1, 1), [0])],
          stored := [], stat := [], del := [], pkey := [([107], ⟨1, 0⟩)] }
        { key := [107], indexedFields := [("title", [1])],
          storedFields := [] }).midStore.pkey [107] = some ⟨1, 0⟩ := by
  decide

theorem alGet_cons {κ ν : Type} [DecidableEq κ] (k k' : κ) (v : ν)
    (l : List (κ × ν)) :
    alGet ((k, v) :: l) k' = if k = k' then some v else alGet l k' := rfl

/-! ## Schema lemmas (C10)

The `u32` field-id counter wraps modulo `2^32`, so `FieldRef` freshness only
holds while the counter cannot overflow; the lemmas carry that bound, and
`c10_field_ref_reuse_after_wrap` shows freshness failing once it is
exceeded. -/

theorem add_fields_refs_lb (reqs : List AddFieldRequest) :
    ∀ (s : Schema) (r : Nat), r ∈ (s.add_fields reqs).2 →
      s.next_field_id + reqs.length < 2 ^ 32 → s.next_field_id ≤ r := by
  induction reqs with
  | nil => intro s r hr _; simp [Schema.add_fields] at hr
  | cons req rest ih =>
    intro s r hr h
    rw [List.length_cons] at h
    simp only [Schema.add_fields, Schema.add_field] at hr
    by_cases hc : (alGet s.field_names req.name).isSome
    · rw [if_pos hc] at hr
      exact ih s r hr (by omega)
    · rw [if_neg hc] at hr
      simp only [List.mem_cons] at hr
      have hm : (s.next_field_id + 1) % 2 ^ 32 = s.next_field_id + 1 :=
        Nat.mod_eq_of_lt (by omega)
      rcases hr with rfl | hr
      · exact le_rfl
      · have hb : (s.next_field_id + 1) % 2 ^ 32 + rest.length < 2 ^ 32 := by
          rw [hm]
          omega
        have h2 := ih _ r hr hb
        have h3 : (s.next_field_id + 1) % 2 ^ 32 ≤ r := h2
        rw [hm] at h3
        omega

theorem add_fields_refs_nodup (reqs : List AddFieldRequest) :
    ∀ (s : Schema), s.next_field_id + reqs.length < 2 ^ 32 →
      ((s.add_fields reqs).2).Nodup := by
  induction reqs with
  | nil => intro s _; simp [Schema.add_fields]
  | cons req rest ih =>
    intro s h
    rw [List.length_cons] at h
    simp only [Schema.add_fields, Schema.add_field]
    by_cases hc : (alGet s.field_names req.name).isSome
    · rw [if_pos hc]
      exact ih s (by omega)
    · rw [if_neg hc]
      have hm : (s.next_field_id + 1) % 2 ^ 32 = s.next_field_id + 1 :=
        Nat.mod_eq_of_lt (by omega)
      have hb : (s.next_field_id + 1) % 2 ^ 32 + rest.length < 2 ^ 32 := by
        rw [hm]
        omega
      refine List.nodup_cons.2 ⟨?_, ih _ hb⟩
      intro hmem
      have h2 := add_fields_refs_lb rest _ _ hmem hb
      have h3 : (s.next_field_id + 1) % 2 ^ 32 ≤ s.next_field_id := h2
      rw [hm] at h3
      omega

/-- On a run of `add_field` calls whose names are pairwise distinct and all
absent from the starting schema, every call succeeds and the returned
`FieldRef`s are the consecutive values of the wrapping `u32` counter. -/
theorem add_fields_refs_of_fresh (reqs : List AddFieldRequest) :
    ∀ (s : Schema), s.next_field_id < 2 ^ 32 →
      (reqs.map (fun req => req.name)).Nodup →
      (∀ req ∈ reqs, alGet s.field_names req.name = Option.none) →
      (s.add_fields reqs).2
        = (List.range reqs.length).map
            (fun i => (s.next_field_id + i) % 2 ^ 32) := by
  induction reqs with
  | nil => intro s _ _ _; simp [Schema.add_fields]
  | cons req rest ih =>
    intro s hn hnames hfresh
    have hhead : alGet s.field_names req.name = Option.none :=
      hfresh req (List.mem_cons_self _ _)
    have hnames' : (∀ x ∈ rest, ¬ x.name = req.name) ∧
        (rest.map (fun req => req.name)).Nodup := by simpa using hnames
    simp only [Schema.add_fields, Schema.add_field, hhead, Option.isSome_none,
      Bool.false_eq_true, if_false, List.length_cons]
    have hfresh' : ∀ req' ∈ rest,
        alGet ((req.name, s.next_field_id) :: s.field_names) req'.name
          = Option.none := by
      intro req' hreq'
      rw [alGet_cons, if_neg, hfresh req' (List.mem_cons_of_mem _ hreq')]
      intro hcontra
      exact hnames'.1 req' hreq' hcontra.symm
    rw [ih _ (Nat.mod_lt _ (by norm_num)) hnames'.2 hfresh']
    conv_rhs => rw [List.range_succ_eq_map]
    rw [List.map_cons, List.map_map]
    congr 1
    · rw [Nat.add_zero, Nat.mod_eq_of_lt hn]
    · refine List.map_congr_left fun i _ => ?_
      show ((s.next_field_id + 1) % 2 ^ 32 + i) % 2 ^ 32
          = (s.next_field_id + (i + 1)) % 2 ^ 32
      rw [Nat.mod_add_mod]
      congr 1
      omega

/-- A run of `2^32 + 1` adds with pairwise-distinct fresh names: enough to
wrap the `u32` field-id counter once. -/
def overflowRequests : List AddFieldRequest :=
  (List.range (2 ^ 32 + 1)).map
    (fun i => ⟨String.mk (List.replicate i 'a'), FieldType.text, 1⟩)

/-- Counterexample to **C10**: after `2^32 + 1` successful `add_field` calls
from a fresh schema, the wrapped `u32` counter hands out an already-returned
`FieldRef`, so the returned refs are not pairwise distinct. -/
theorem c10_field_ref_reuse_after_wrap :
    ¬ ((((Schema.new).add_fields overflowRequests).2).Nodup) := by
  intro hnd
  have hnames : (overflowRequests.map (fun req => req.name)).Nodup := by
    rw [overflowRequests, List.map_map]
    refine (List.nodup_map_iff ?_).2 (List.nodup_range _)
    intro i j hij
    have h1 := congrArg String.data hij
    simpa using congrArg List.length h1
  have hfresh : ∀ req ∈ overflowRequests,
      alGet (Schema.new).field_names req.name = Option.none := fun _ _ => rfl
  have hrefs := add_fields_refs_of_fresh overflowRequests Schema.new
    (by decide) hnames hfresh
  have hlen : overflowRequests.length = 2 ^ 32 + 1 := by
    simp [overflowRequests]
  rw [hrefs, hlen] at hnd
  have hinj := List.inj_on_of_nodup_map hnd
  have h01 : ((Schema.new).next_field_id + 0) % 2 ^ 32
      = ((Schema.new).next_field_id + 2 ^ 32) % 2 ^ 32 := by
    show (1 + 0) % 2 ^ 32 = (1 + 2 ^ 32) % 2 ^ 32
    rw [Nat.add_zero, Nat.add_mod_right]
  have h0M := hinj (List.mem_range.2 (Nat.succ_pos _))
    (List.mem_range.2 (Nat.lt_succ_self _)) h01
  exact absurd h0M (by norm_num)

/-- **C10** (corrected).  A failed `add_field` on an existing name returns
`FieldAlreadyExists` with that name and leaves the whole schema — fields
map, name map and `next_field_id` — unchanged, so no field id is consumed;
and the successfully returned `FieldRef`s of any call sequence are pairwise
distinct as long as the `u32` id counter cannot overflow during the run
(`next_field_id + number of calls < 2^32`). -/
theorem c10_add_field_atomic_and_fresh (s : Schema) (name : String)
    (ft : FieldType) (flags : Nat)
    (h : (alGet s.field_names name).isSome) :
    s.add_field name ft flags = (.error (.fieldAlreadyExists name), s) ∧
    ∀ (s₀ : Schema) (reqs : List AddFieldRequest),
      s₀.next_field_id + reqs.length < 2 ^ 32 →
      ((s₀.add_fields reqs).2).Nodup := by
  refine ⟨?_, fun s₀ reqs hb => add_fields_refs_nodup reqs s₀ hb⟩
  simp [Schema.add_field, h]

/-- Witness for C10: re-adding the name `"a"` to a schema that has it. -/
theorem c10_add_field_atomic_and_fresh_witness :
    (alGet (((Schema.new).add_field "a" FieldType.text 1).2).field_names "a").isSome ∧
    ((((Schema.new).add_field "a" FieldType.text 1).2).add_field "a" FieldType.boolean 2
        = (.error (.fieldAlreadyExists "a"), ((Schema.new).add_field "a" FieldType.text 1).2) ∧
      ∀ (s₀ : Schema) (reqs : List AddFieldRequest),
        s₀.next_field_id + reqs.length < 2 ^ 32 →
        ((s₀.add_fields reqs).2).Nodup) :=
  ⟨by decide, c10_add_field_atomic_and_fresh _ "a" FieldType.boolean 2 (by decide)⟩

/-! ## Boost lemmas (C9) -/

theorem add_boost_one (q : Query) : q.add_boost 1 = q := by
  rw [Query.add_boost.eq_def]; simp

theorem add_boost_list_one (qs : List Query) : Query.add_boost_list qs 1 = qs := by
  induction qs with
  | nil => simp [Query.add_boost_list]
  | cons q rest ih => simp [Query.add_boost_list, add_boost_one, ih]

theorem add_boost_list_eq_map (qs : List Query) (c : ℚ) :
    Query.add_boost_list qs c = qs.map (fun q => q.add_boost c) := by
  induction qs with
  | nil => simp [Query.add_boost_list]
  | cons q rest ih => simp [Query.add_boost_list, ih]

theorem add_boost_all (s c : ℚ) : (Query.all s).add_boost c = .all (s * c) := by
  by_cases hc : c = 1
  · subst hc; rw [add_boost_one, mul_one]
  · rw [Query.add_boost.eq_def]; simp [hc]

theorem add_boost_nonequery (c : ℚ) : (Query.none).add_boost c = .none := by
  by_cases hc : c = 1 <;> simp [Query.add_boost.eq_def, hc]

theorem add_boost_term (f : Nat) (t : List Nat) (sc : TermScorer) (c : ℚ) :
    (Query.term f t sc).add_boost c = .term f t { sc with boost := sc.boost * c } := by
  by_cases hc : c = 1
  · subst hc; rw [add_boost_one, mul_one]
  · rw [Query.add_boost.eq_def]; simp [hc]

theorem add_boost_multiTerm (f : Nat) (sel : MultiTermSelector) (sc : TermScorer)
    (c : ℚ) :
    (Query.multiTerm f sel sc).add_boost c
      = .multiTerm f sel { sc with boost := sc.boost * c } := by
  by_cases hc : c = 1
  · subst hc; rw [add_boost_one, mul_one]
  · rw [Query.add_boost.eq_def]; simp [hc]

theorem add_boost_conjunction (qs : List Query) (c : ℚ) :
    (Query.conjunction qs).add_boost c = .conjunction (Query.add_boost_list qs c) := by
  by_cases hc : c = 1
  · subst hc; rw [add_boost_one, add_boost_list_one]
  · rw [Query.add_boost.eq_def]; simp [hc]

theorem add_boost_disjunction (qs : List Query) (c : ℚ) :
    (Query.disjunction qs).add_boost c = .disjunction (Query.add_boost_list qs c) := by
  by_cases hc : c = 1
  · subst hc; rw [add_boost_one, add_boost_list_one]
  · rw [Query.add_boost.eq_def]; simp [hc]

theorem add_boost_disjunctionMax (qs : List Query) (c : ℚ) :
    (Query.disjunctionMax qs).add_boost c
      = .disjunctionMax (Query.add_boost_list qs c) := by
  by_cases hc : c = 1
  · subst hc; rw [add_boost_one, add_boost_list_one]
  · rw [Query.add_boost.eq_def]; simp [hc]

theorem add_boost_filter (q flt : Query) (c : ℚ) :
    (Query.filter q flt).add_boost c = .filter (q.add_boost c) flt := by
  by_cases hc : c = 1
  · subst hc; rw [add_boost_one, add_boost_one]
  · rw [Query.add_boost.eq_def]; simp [hc]

theorem add_boost_exclude (q e : Query) (c : ℚ) :
    (Query.exclude q e).add_boost c = .exclude (q.add_boost c) e := by
  by_cases hc : c = 1
  · subst hc; rw [add_boost_one, add_boost_one]
  · rw [Query.add_boost.eq_def]; simp [hc]

theorem add_boost_add_boost :
    ∀ (n : Nat) (q : Query), sizeOf q ≤ n → ∀ a b : ℚ,
      (q.add_boost a).add_boost b = q.add_boost (a * b) := by
  intro n
  induction n with
  | zero => intro q hq; exfalso; cases q <;> simp at hq
  | succ n ih =>
    intro q hq a b
    cases q with
    | all s => rw [add_boost_all, add_boost_all, add_boost_all, mul_assoc]
    | none => rw [add_boost_nonequery, add_boost_nonequery, add_boost_nonequery]
    | term f t sc => rw [add_boost_term, add_boost_term, add_boost_term, mul_assoc]
    | multiTerm f sel sc =>
      rw [add_boost_multiTerm, add_boost_multiTerm, add_boost_multiTerm, mul_assoc]
    | conjunction qs =>
      rw [add_boost_conjunction, add_boost_conjunction, add_boost_conjunction,
        add_boost_list_eq_map, add_boost_list_eq_map, add_boost_list_eq_map,
        List.map_map]
      refine congrArg _ (List.map_congr_left fun x hx => ?_)
      have hlt := List.sizeOf_lt_of_mem hx
      simp only [Query.conjunction.sizeOf_spec] at hq
      exact ih x (by omega) a b
    | disjunction qs =>
      rw [add_boost_disjunction, add_boost_disjunction, add_boost_disjunction,
        add_boost_list_eq_map, add_boost_list_eq_map, add_boost_list_eq_map,
        List.map_map]
      refine congrArg _ (List.map_congr_left fun x hx => ?_)
      have hlt := List.sizeOf_lt_of_mem hx
      simp only [Query.disjunction.sizeOf_spec] at hq
      exact ih x (by omega) a b
    | disjunctionMax qs =>
      rw [add_boost_disjunctionMax, add_boost_disjunctionMax, add_boost_disjunctionMax,
        add_boost_list_eq_map, add_boost_list_eq_map, add_boost_list_eq_map,
        List.map_map]
      refine congrArg _ (List.map_congr_left fun x hx => ?_)
      have hlt := List.sizeOf_lt_of_mem hx
      simp only [Query.disjunctionMax.sizeOf_spec] at hq
      exact ih x (by omega) a b
    | filter q' flt =>
      rw [add_boost_filter, add_boost_filter, add_boost_filter]
      simp only [Query.filter.sizeOf_spec] at hq
      rw [ih q' (by omega) a b]
    | exclude q' e =>
      rw [add_boost_exclude, add_boost_exclude, add_boost_exclude]
      simp only [Query.exclude.sizeOf_spec] at hq
      rw [ih q' (by omega) a b]

/-- **C9** (confirmed).  For positive boosts `a`, `b`, boosting twice equals
boosting by the product — the resulting query trees (hence every leaf
scorer boost and the constant of `All`) are equal — and `boost 1` returns
the query unchanged.  (`f32` arithmetic is idealized as exact rationals.) -/
theorem c9_boost_algebra (q : Query) (a b : ℚ) (_ha : 0 < a) (_hb : 0 < b) :
    (q.boost a).boost b = q.boost (a * b) ∧ q.boost 1 = q :=
  ⟨add_boost_add_boost (sizeOf q) q le_rfl a b, add_boost_one q⟩

/-- Witness for C9: a term query boosted by 2 then 3. -/
theorem c9_boost_algebra_witness :
    (0 : ℚ) < 2 ∧ (0 : ℚ) < 3 ∧
    ((((Query.term 1 [104] ⟨1, 1, 1⟩).boost 2).boost 3
        = (Query.term 1 [104] ⟨1, 1, 1⟩).boost (2 * 3)) ∧
      (Query.term 1 [104] ⟨1, 1, 1⟩).boost 1 = Query.term 1 [104] ⟨1, 1, 1⟩) :=
  ⟨by norm_num, by norm_num,
    c9_boost_algebra (Query.term 1 [104] ⟨1, 1, 1⟩) 2 3 (by norm_num) (by norm_num)⟩

/-! ## Ingestion error path (C5) -/

theorem indexedFieldOps_error_of_find (schema : Schema) (segment ord : Nat)
    (fields : List (String × List Nat)) (name : String) (tokens : List Nat)
    (h : fields.find? (fun p => (schema.get_field_by_name p.1).isNone)
      = some (name, tokens)) :
    indexedFieldOps schema segment ord fields = .error name := by
  induction fields with
  | nil => simp [List.find?] at h
  | cons p rest ih =>
    obtain ⟨n, ts⟩ := p
    cases hlook : schema.get_field_by_name n with
    | none =>
      simp only [List.find?_cons, hlook] at h
      obtain ⟨rfl, rfl⟩ : n = name ∧ ts = tokens := by
        simpa using h
      simp [indexedFieldOps, hlook]
    | some fr =>
      simp only [List.find?_cons, hlook] at h
      simp only [Option.isNone_some, if_false, Bool.false_eq_true] at h
      have := ih h
      simp only [indexedFieldOps, hlook]
      rw [this]

/-- **C5** (corrected).  An indexed field whose name is missing from the
schema aborts the insert before the segment batch is committed: the result
is `FieldDoesntExist` with the first such name, and the visible store shows
only the leaked segment-id counter — no `ACTIVE`, posting, stored, statistic,
deletion or `PKEY` key of the document. -/
theorem c5_unknown_indexed_field_aborts (schema : Schema) (st : Store) (doc : Doc)
    (name : String) (tokens : List Nat)
    (h : doc.indexedFields.find? (fun p => (schema.get_field_by_name p.1).isNone)
      = some (name, tokens)) :
    insertOrUpdateDocument schema st doc
      = .fieldDoesntExist name { st with nextSegmentId := st.nextSegmentId + 1 } := by
  simp only [insertOrUpdateDocument,
    indexedFieldOps_error_of_find schema st.nextSegmentId 0 doc.indexedFields
      name tokens h]

/-- Witness for C5: inserting a document whose indexed field `"title"` is
unknown to the empty schema. -/
theorem c5_unknown_indexed_field_aborts_witness :
    (({ key := [107], indexedFields := [("title", [1])],
        storedFields := [] } : Doc).indexedFields.find?
        (fun p => ((Schema.new).get_field_by_name p.1).isNone)
      = some ("title", [1])) ∧
    insertOrUpdateDocument Schema.new Store.empty
        { key := [107], indexedFields := [("title", [1])], storedFields := [] }
      = .fieldDoesntExist "title"
          { Store.empty with nextSegmentId := Store.empty.nextSegmentId + 1 } :=
  ⟨by decide,
    c5_unknown_indexed_field_aborts Schema.new Store.empty
      { key := [107], indexedFields := [("title", [1])], storedFields := [] }
      "title" [1] (by decide)⟩

/-! ## Store frame lemmas (C2, C8) -/

theorem alGet_eq_none {κ ν : Type} [DecidableEq κ] (l : List (κ × ν)) (k : κ)
    (h : ∀ e ∈ l, ¬ e.1 = k) : alGet l k = none := by
  induction l with
  | nil => rfl
  | cons e rest ih =>
    obtain ⟨k', v⟩ := e
    rw [alGet_cons, if_neg (h (k', v) (by simp)), ih fun e he => h e (by simp [he])]

/-- The batch operations that only touch per-segment content families
(postings, stored values, statistics). -/
def StoreOp.isContentOp : StoreOp → Bool
  | .mergePost _ _ _ _ => true
  | .mergeStored _ _ _ _ _ => true
  | .mergeStat _ _ _ => true
  | _ => false

theorem applyBatch_frame_content (ops : List StoreOp) :
    ∀ (st : Store), (∀ op ∈ ops, op.isContentOp = true) →
      (st.applyBatch ops).active = st.active ∧
      (st.applyBatch ops).del = st.del ∧
      (st.applyBatch ops).pkey = st.pkey := by
  induction ops with
  | nil => exact fun st _ => ⟨rfl, rfl, rfl⟩
  | cons op rest ih =>
    intro st h
    have hop := h op (by simp)
    have step : st.applyBatch (op :: rest) = (st.applyOp op).applyBatch rest := rfl
    rw [step]
    cases op with
    | putActive s => simp [StoreOp.isContentOp] at hop
    | removeActive s => simp [StoreOp.isContentOp] at hop
    | mergeDel s o => simp [StoreOp.isContentOp] at hop
    | putPkey k r => simp [StoreOp.isContentOp] at hop
    | mergePost f τ s o => exact ih _ fun o ho => h o (by simp [ho])
    | mergeStored s o f kind v => exact ih _ fun o ho => h o (by simp [ho])
    | mergeStat s nm i => exact ih _ fun o ho => h o (by simp [ho])

theorem indexedFieldOps_content (schema : Schema) (seg ord : Nat) :
    ∀ (fields : List (String × List Nat)) (ops : List StoreOp),
      indexedFieldOps schema seg ord fields = .ok ops →
      ∀ op ∈ ops, op.isContentOp = true := by
  intro fields
  induction fields with
  | nil =>
    intro ops h op hop
    simp only [indexedFieldOps, Except.ok.injEq] at h
    subst h
    simp at hop
  | cons p rest ih =>
    intro ops h op hop
    obtain ⟨n, ts⟩ := p
    cases hlook : schema.get_field_by_name n with
    | none => simp [indexedFieldOps, hlook] at h
    | some fr =>
      cases hrest : indexedFieldOps schema seg ord rest with
      | error e => simp [indexedFieldOps, hlook, hrest] at h
      | ok restOps =>
        simp only [indexedFieldOps, hlook, hrest, Except.ok.injEq] at h
        subst h
        simp only [List.mem_append] at hop
        rcases hop with ((((hd | htf) | hlen) | hstat) | hr)
        · obtain ⟨t, _, rfl⟩ := List.mem_map.1 hd
          rfl
        · obtain ⟨t, _, hin⟩ := List.mem_flatMap.1 htf
          rcases List.mem_append.1 hin with hin1 | hin2
          · by_cases hc : ts.count t ≠ 1
            · rw [if_pos hc] at hin1
              simp only [List.mem_singleton] at hin1
              subst hin1
              rfl
            · rw [if_neg hc] at hin1
              simp at hin1
          · simp only [List.mem_singleton] at hin2
            subst hin2
            rfl
        · by_cases hc : fieldLengthByte ts.length ≠ 0
          · rw [if_pos hc] at hlen
            simp only [List.mem_singleton] at hlen
            subst hlen
            rfl
          · rw [if_neg hc] at hlen
            simp at hlen
        · simp only [List.mem_cons, List.mem_singleton] at hstat
          rcases hstat with rfl | rfl | h0
          · rfl
          · rfl
          · simp at h0
        · exact ih restOps hrest op hr

theorem storedFieldOps_content (schema : Schema) (seg ord : Nat) :
    ∀ (fields : List (String × FieldValue)),
      ∀ op ∈ storedFieldOps schema seg ord fields, op.isContentOp = true := by
  intro fields
  induction fields with
  | nil => intro op hop; simp [storedFieldOps] at hop
  | cons p rest ih =>
    intro op hop
    obtain ⟨n, v⟩ := p
    cases hlook : schema.get_field_by_name n with
    | none =>
      rw [storedFieldOps, hlook] at hop
      exact ih op hop
    | some fr =>
      rw [storedFieldOps, hlook] at hop
      rcases List.mem_cons.1 hop with rfl | hop'
      · rfl
      · exact ih op hop'

theorem insertOrReplaceKey_active (st : Store) (key : List Nat) (r : DocRef) :
    (insertOrReplaceKey st key r).active = st.active := by
  unfold insertOrReplaceKey
  cases alGet st.pkey key <;> rfl

theorem insertOrReplaceKey_stored (st : Store) (key : List Nat) (r : DocRef) :
    (insertOrReplaceKey st key r).stored = st.stored := by
  unfold insertOrReplaceKey
  cases alGet st.pkey key <;> rfl

theorem insertOrReplaceKey_pkey (st : Store) (key : List Nat) (r : DocRef) :
    (insertOrReplaceKey st key r).pkey = (key, r) :: st.pkey := by
  unfold insertOrReplaceKey
  cases alGet st.pkey key <;> rfl

theorem insertOrReplaceKey_del_some (st : Store) (key : List Nat) (r old : DocRef)
    (h : alGet st.pkey key = some old) :
    (insertOrReplaceKey st key r).del
      = (old.segment, (alGet st.del old.segment).getD [] ++ [old.ord]) :: st.del := by
  unfold insertOrReplaceKey
  rw [h]
  rfl

theorem insert_ok_elim (schema : Schema) (st : Store) (doc : Doc) (mid fin : Store)
    (hok : insertOrUpdateDocument schema st doc = .ok mid fin) :
    ∃ idxOps,
      indexedFieldOps schema st.nextSegmentId 0 doc.indexedFields = .ok idxOps ∧
      mid = ({ st with nextSegmentId := st.nextSegmentId + 1 } : Store).applyBatch
        (StoreOp.putActive st.nextSegmentId :: idxOps
          ++ storedFieldOps schema st.nextSegmentId 0 doc.storedFields
          ++ [StoreOp.mergeStat st.nextSegmentId (asciiBytes "total_docs") 1]) ∧
      fin = insertOrReplaceKey mid doc.key ⟨st.nextSegmentId, 0⟩ := by
  cases hidx : indexedFieldOps schema st.nextSegmentId 0 doc.indexedFields with
  | error e => simp [insertOrUpdateDocument, hidx] at hok
  | ok idxOps =>
    simp only [insertOrUpdateDocument, hidx, InsertResult.ok.injEq] at hok
    obtain ⟨hmid, hfin⟩ := hok
    exact ⟨idxOps, rfl, hmid.symm, by rw [← hfin, ← hmid]⟩

/-- **C2** (corrected).  Per the liveness definition (primary key ∧ active ∧
not deleted), a reader never sees both or neither version as live: before
the insert and between its two batches exactly the old document is live for
the key, and after the document-index batch exactly the new one is.  (The
claim's further assertion that no intermediate state shows both documents to
a *query* is refuted by `c2_intermediate_state_shows_both`: between the two
batches both segments are active and neither ordinal is deleted.) -/
theorem c2_replacement_liveness (schema : Schema) (st : Store) (doc : Doc)
    (old : DocRef) (mid fin : Store)
    (h1 : alGet st.pkey doc.key = some old)
    (h2 : old.segment ∈ st.active)
    (h3 : old.ord ∉ (alGet st.del old.segment).getD [])
    (h4 : old.segment < st.nextSegmentId)
    (h5 : ∀ e ∈ st.del, e.1 < st.nextSegmentId)
    (hok : insertOrUpdateDocument schema st doc = .ok mid fin) :
    (∀ r, st.live doc.key r ↔ r = old) ∧
    (∀ r, mid.live doc.key r ↔ r = old) ∧
    (∀ r, fin.live doc.key r ↔ r = (⟨st.nextSegmentId, 0⟩ : DocRef)) := by
  obtain ⟨idxOps, hidx, hmid, hfin⟩ := insert_ok_elim schema st doc mid fin hok
  have hcontent : ∀ op ∈ (idxOps
      ++ storedFieldOps schema st.nextSegmentId 0 doc.storedFields
      ++ [StoreOp.mergeStat st.nextSegmentId (asciiBytes "total_docs") 1]),
      op.isContentOp = true := by
    intro op hop
    rcases List.mem_append.1 hop with h' | h'
    · rcases List.mem_append.1 h' with h'' | h''
      · exact indexedFieldOps_content schema st.nextSegmentId 0 doc.indexedFields
          idxOps hidx op h''
      · exact storedFieldOps_content schema st.nextSegmentId 0 doc.storedFields op h''
    · simp only [List.mem_singleton] at h'
      subst h'
      rfl
  have hframe := applyBatch_frame_content _
    (({ st with nextSegmentId := st.nextSegmentId + 1 } : Store).applyOp
      (.putActive st.nextSegmentId)) hcontent
  have hmidActive : mid.active = st.nextSegmentId :: st.active := by
    rw [hmid]
    exact hframe.1
  have hmidDel : mid.del = st.del := by
    rw [hmid]
    exact hframe.2.1
  have hmidPkey : mid.pkey = st.pkey := by
    rw [hmid]
    exact hframe.2.2
  have hmidPkeyKey : alGet mid.pkey doc.key = some old := by
    rw [hmidPkey]
    exact h1
  have hfinPkey : fin.pkey
      = (doc.key, (⟨st.nextSegmentId, 0⟩ : DocRef)) :: st.pkey := by
    rw [hfin, insertOrReplaceKey_pkey, hmidPkey]
  have hfinActive : fin.active = st.nextSegmentId :: st.active := by
    rw [hfin, insertOrReplaceKey_active, hmidActive]
  have hfinDel : fin.del
      = (old.segment, (alGet st.del old.segment).getD [] ++ [old.ord]) :: st.del := by
    rw [hfin, insertOrReplaceKey_del_some mid doc.key _ old hmidPkeyKey, hmidDel]
  refine ⟨?_, ?_, ?_⟩
  · intro r
    constructor
    · rintro ⟨hp, -, -⟩
      rw [h1] at hp
      exact (Option.some_inj.1 hp).symm
    · rintro rfl
      exact ⟨h1, h2, h3⟩
  · intro r
    constructor
    · rintro ⟨hp, -, -⟩
      rw [hmidPkey, h1] at hp
      exact (Option.some_inj.1 hp).symm
    · rintro rfl
      refine ⟨hmidPkeyKey, ?_, ?_⟩
      · rw [hmidActive]
        exact List.mem_cons_of_mem _ h2
      · rw [hmidDel]
        exact h3
  · intro r
    constructor
    · rintro ⟨hp, -, -⟩
      rw [hfinPkey, alGet_cons, if_pos rfl] at hp
      exact (Option.some_inj.1 hp).symm
    · rintro rfl
      refine ⟨?_, ?_, ?_⟩
      · rw [hfinPkey, alGet_cons, if_pos rfl]
      · rw [hfinActive]
        exact List.mem_cons_self _ _
      · have hne : ¬ old.segment = st.nextSegmentId := by omega
        have hnone : alGet st.del st.nextSegmentId = none := by
          refine alGet_eq_none st.del st.nextSegmentId fun e he => ?_
          have := h5 e he
          omega
        rw [hfinDel, alGet_cons, if_neg hne, hnone]
        simp

/-- Witness for C2: the concrete replacement of key `[107]` whose old
location is `(1,0)`; applying the theorem yields the per-state liveness. -/
theorem c2_replacement_liveness_witness :
    (alGet (Store.pkey
        { nextSegmentId := 2, active := [1], post := [((1, 1, 1), [0])],
          stored := [], stat := [], del := [], pkey := [([107], ⟨1, 0⟩)] })
        [107] = some ⟨1, 0⟩) ∧
    ((1 : Nat) ∈ ([1] : List Nat)) ∧
    ((∀ r, Store.live
        { nextSegmentId := 2, active := [1], post := [((1, 1, 1), [0])],
          stored := [], stat := [], del := [], pkey := [([107], ⟨1, 0⟩)] }
        [107] r ↔ r = (⟨1, 0⟩ : DocRef)) ∧
      (∀ r, Store.live
        (insertOrUpdateDocument ((Schema.new).add_field "title" FieldType.text 1).2
          { nextSegmentId := 2, active := [1], post := [((1, 1, 1), [0])],
            stored := [], stat := [], del := [], pkey := [([107], ⟨1, 0⟩)] }
          { key := [107], indexedFields := [("title", [1])],
            storedFields := [] }).midStore [107] r ↔ r = (⟨1, 0⟩ : DocRef)) ∧
      (∀ r, Store.live
        (insertOrUpdateDocument ((Schema.new).add_field "title" FieldType.text 1).2
          { nextSegmentId := 2, active := [1], post := [((1, 1, 1), [0])],
            stored := [], stat := [], del := [], pkey := [([107], ⟨1, 0⟩)] }
          { key := [107], indexedFields := [("title", [1])],
            storedFields := [] }).finStore [107] r ↔ r = (⟨2, 0⟩ : DocRef))) :=
  ⟨by decide, by decide,
    c2_replacement_liveness ((Schema.new).add_field "title" FieldType.text 1).2
      { nextSegmentId := 2, active := [1], post := [((1, 1, 1), [0])],
        stored := [], stat := [], del := [], pkey := [([107], ⟨1, 0⟩)] }
      { key := [107], indexedFields := [("title", [1])], storedFields := [] }
      ⟨1, 0⟩ _ _ (by decide) (by decide) (by decide) (by decide) (by decide)
      (by decide)⟩

/-! ## Stored-value writes through a batch (C8) -/

/-- The stored value written by one operation at stored key `k`, if any. -/
def storedWriteAt (op : StoreOp) (k : Nat × Nat × Nat × List Nat) :
    Option (List Nat) :=
  match op with
  | .mergeStored s o f kind v => if (s, o, f, kind) = k then some v else none
  | _ => none

/-- The last stored value a batch writes at key `k`, if any. -/
def lastStoredWrite (ops : List StoreOp) (k : Nat × Nat × Nat × List Nat) :
    Option (List Nat) :=
  match ops with
  | [] => none
  | op :: rest =>
    match lastStoredWrite rest k with
    | some v => some v
    | none => storedWriteAt op k

theorem lastStoredWrite_append (l1 l2 : List StoreOp)
    (k : Nat × Nat × Nat × List Nat) :
    lastStoredWrite (l1 ++ l2) k
      = match lastStoredWrite l2 k with
        | some v => some v
        | none => lastStoredWrite l1 k := by
  induction l1 with
  | nil =>
    rw [List.nil_append]
    cases h : lastStoredWrite l2 k <;> simp [h, lastStoredWrite]
  | cons op rest ih =>
    show (match lastStoredWrite (rest ++ l2) k with
          | some v => some v
          | none => storedWriteAt op k)
        = match lastStoredWrite l2 k with
          | some v => some v
          | none => lastStoredWrite (op :: rest) k
    rw [ih]
    cases lastStoredWrite l2 k with
    | some v => rfl
    | none =>
      show (match lastStoredWrite rest k with
            | some v => some v
            | none => storedWriteAt op k) = lastStoredWrite (op :: rest) k
      rfl

theorem lastStoredWrite_eq_none (ops : List StoreOp)
    (k : Nat × Nat × Nat × List Nat)
    (h : ∀ op ∈ ops, storedWriteAt op k = none) :
    lastStoredWrite ops k = none := by
  induction ops with
  | nil => rfl
  | cons op rest ih =>
    simp only [lastStoredWrite, ih fun o ho => h o (by simp [ho])]
    exact h op (by simp)

theorem applyBatch_stored_alGet (ops : List StoreOp) :
    ∀ (st : Store) (k : Nat × Nat × Nat × List Nat),
      alGet (st.applyBatch ops).stored k
        = match lastStoredWrite ops k with
          | some v => some v
          | none => alGet st.stored k := by
  induction ops with
  | nil => intro st k; rfl
  | cons op rest ih =>
    intro st k
    have step : st.applyBatch (op :: rest) = (st.applyOp op).applyBatch rest := rfl
    rw [step, ih]
    show (match lastStoredWrite rest k with
          | some v => some v
          | none => alGet (st.applyOp op).stored k)
        = match (match lastStoredWrite rest k with
                 | some v => some v
                 | none => storedWriteAt op k) with
          | some v => some v
          | none => alGet st.stored k
    cases lastStoredWrite rest k with
    | some v => rfl
    | none =>
      cases op with
      | mergeStored s o f kind v =>
        show alGet (((s, o, f, kind), v) :: st.stored) k
            = match (if (s, o, f, kind) = k then some v else none) with
              | some v => some v
              | none => alGet st.stored k
        rw [alGet_cons]
        by_cases hk : (s, o, f, kind) = k <;> simp [hk]
      | putActive s => rfl
      | removeActive s => rfl
      | mergePost f τ s o => rfl
      | mergeStat s nm i => rfl
      | mergeDel s o => rfl
      | putPkey kk r => rfl

theorem kindTf_ne_kindLen (t : Nat) : kindTf t ≠ kindLen := by
  simp [kindTf, kindLen]

theorem kindVal_ne_kindLen : kindVal ≠ kindLen := by decide

/-- The `"len"` value the pipeline writes for a field of `tokens` tokens:
absent when the squashed byte is zero. -/
def lenValueOpt (tokens : List Nat) : Option (List Nat) :=
  if fieldLengthByte tokens.length = 0 then none
  else some [fieldLengthByte tokens.length]

theorem opt_match_id (x : Option (List Nat)) :
    (match x with | some v => some v | none => Option.none) = x := by
  cases x <;> rfl

theorem idxOps_len_lookup (schema : Schema) (seg : Nat) (name : String)
    (tokens : List Nat) (fr : Nat)
    (hfr : schema.get_field_by_name name = some fr) :
    ∀ (fields : List (String × List Nat)) (ops : List StoreOp),
      indexedFieldOps schema seg 0 fields = .ok ops →
      (∀ p ∈ fields, schema.get_field_by_name p.1 = some fr → p = (name, tokens)) →
      (lastStoredWrite ops (seg, 0, fr, kindLen) = none ∨
        lastStoredWrite ops (seg, 0, fr, kindLen) = lenValueOpt tokens) ∧
      ((name, tokens) ∈ fields →
        lastStoredWrite ops (seg, 0, fr, kindLen) = lenValueOpt tokens) := by
  intro fields
  induction fields with
  | nil =>
    intro ops h _
    simp only [indexedFieldOps, Except.ok.injEq] at h
    subst h
    exact ⟨Or.inl rfl, by simp⟩
  | cons p rest ih =>
    intro ops h huniq
    obtain ⟨n, ts⟩ := p
    cases hlook : schema.get_field_by_name n with
    | none => simp [indexedFieldOps, hlook] at h
    | some frn =>
      cases hrest : indexedFieldOps schema seg 0 rest with
      | error e => simp [indexedFieldOps, hlook, hrest] at h
      | ok restOps =>
        simp only [indexedFieldOps, hlook, hrest, Except.ok.injEq] at h
        subst h
        have ihres := ih restOps hrest fun p hp hlp => huniq p (by simp [hp]) hlp
        have hdir : lastStoredWrite (ts.map fun t => StoreOp.mergePost frn t seg 0)
            (seg, 0, fr, kindLen) = none := by
          refine lastStoredWrite_eq_none _ _ fun op hop => ?_
          obtain ⟨t, -, rfl⟩ := List.mem_map.1 hop
          rfl
        have htf : lastStoredWrite ((distinctTerms ts).flatMap fun t =>
            (if ts.count t ≠ 1 then
              [StoreOp.mergeStored seg 0 frn (kindTf t) (beWriteI64 (ts.count t))]
            else []) ++ [StoreOp.mergeStat seg (statTermDocFrequency frn t) 1])
            (seg, 0, fr, kindLen) = none := by
          refine lastStoredWrite_eq_none _ _ fun op hop => ?_
          obtain ⟨t, -, hin⟩ := List.mem_flatMap.1 hop
          rcases List.mem_append.1 hin with hin1 | hin2
          · by_cases hc : ts.count t ≠ 1
            · rw [if_pos hc] at hin1
              simp only [List.mem_singleton] at hin1
              subst hin1
              show (if ((seg, 0, frn, kindTf t) : Nat × Nat × Nat × List Nat)
                  = (seg, 0, fr, kindLen) then some (beWriteI64 (ts.count t))
                else none) = none
              rw [if_neg]
              intro hcontra
              exact kindTf_ne_kindLen t (congrArg (fun q => q.2.2.2) hcontra)
            · rw [if_neg hc] at hin1
              simp at hin1
          · simp only [List.mem_singleton] at hin2
            subst hin2
            rfl
        have hstat : lastStoredWrite
            [StoreOp.mergeStat seg (statTotalFieldDocs frn) 1,
             StoreOp.mergeStat seg (statTotalFieldTokens frn) ts.length]
            (seg, 0, fr, kindLen) = none := by
          refine lastStoredWrite_eq_none _ _ fun op hop => ?_
          simp only [List.mem_cons, List.mem_singleton] at hop
          rcases hop with rfl | rfl | h0
          · rfl
          · rfl
          · simp at h0
        have hchain : lastStoredWrite
            ((ts.map fun t => StoreOp.mergePost frn t seg 0)
              ++ ((distinctTerms ts).flatMap fun t =>
                (if ts.count t ≠ 1 then
                  [StoreOp.mergeStored seg 0 frn (kindTf t) (beWriteI64 (ts.count t))]
                else []) ++ [StoreOp.mergeStat seg (statTermDocFrequency frn t) 1])
              ++ (if fieldLengthByte ts.length ≠ 0 then
                  [StoreOp.mergeStored seg 0 frn kindLen [fieldLengthByte ts.length]]
                else [])
              ++ [StoreOp.mergeStat seg (statTotalFieldDocs frn) 1,
                  StoreOp.mergeStat seg (statTotalFieldTokens frn) ts.length]
              ++ restOps)
            (seg, 0, fr, kindLen)
            = match lastStoredWrite restOps (seg, 0, fr, kindLen) with
              | some v => some v
              | none => lastStoredWrite
                  (if fieldLengthByte ts.length ≠ 0 then
                    [StoreOp.mergeStored seg 0 frn kindLen [fieldLengthByte ts.length]]
                  else []) (seg, 0, fr, kindLen) := by
          rw [lastStoredWrite_append]
          cases hr : lastStoredWrite restOps (seg, 0, fr, kindLen) with
          | some v => rfl
          | none =>
            rw [lastStoredWrite_append, hstat, lastStoredWrite_append,
              lastStoredWrite_append, htf, hdir]
            exact opt_match_id _
        by_cases hfrn : frn = fr
        · have hhead : (n, ts) = (name, tokens) :=
            huniq (n, ts) (List.mem_cons_self _ _) (hfrn ▸ hlook)
          have hts : ts = tokens := congrArg Prod.snd hhead
          have hlenval : lastStoredWrite
              (if fieldLengthByte ts.length ≠ 0 then
                [StoreOp.mergeStored seg 0 frn kindLen [fieldLengthByte ts.length]]
              else []) (seg, 0, fr, kindLen) = lenValueOpt tokens := by
            rw [hts, hfrn]
            by_cases hz : fieldLengthByte tokens.length = 0
            · rw [if_neg (by simpa using hz)]
              simp [lenValueOpt, hz, lastStoredWrite]
            · rw [if_pos (by simpa using hz)]
              simp [lenValueOpt, hz, lastStoredWrite, storedWriteAt]
          have hmain : lastStoredWrite
              ((ts.map fun t => StoreOp.mergePost frn t seg 0)
                ++ ((distinctTerms ts).flatMap fun t =>
                  (if ts.count t ≠ 1 then
                    [StoreOp.mergeStored seg 0 frn (kindTf t) (beWriteI64 (ts.count t))]
                  else []) ++ [StoreOp.mergeStat seg (statTermDocFrequency frn t) 1])
                ++ (if fieldLengthByte ts.length ≠ 0 then
                    [StoreOp.mergeStored seg 0 frn kindLen [fieldLengthByte ts.length]]
                  else [])
                ++ [StoreOp.mergeStat seg (statTotalFieldDocs frn) 1,
                    StoreOp.mergeStat seg (statTotalFieldTokens frn) ts.length]
                ++ restOps)
              (seg, 0, fr, kindLen) = lenValueOpt tokens := by
            rw [hchain]
            cases hr : lastStoredWrite restOps (seg, 0, fr, kindLen) with
            | none => simpa using hlenval
            | some v =>
              rcases ihres.1 with h0 | h0
              · rw [hr] at h0
                simp at h0
              · rw [hr] at h0
                simpa using h0
          exact ⟨Or.inr hmain, fun _ => hmain⟩
        · have hlennone : lastStoredWrite
              (if fieldLengthByte ts.length ≠ 0 then
                [StoreOp.mergeStored seg 0 frn kindLen [fieldLengthByte ts.length]]
              else []) (seg, 0, fr, kindLen) = none := by
            by_cases hz : fieldLengthByte ts.length ≠ 0
            · rw [if_pos hz]
              simp [lastStoredWrite, storedWriteAt, hfrn]
            · rw [if_neg hz]
              rfl
          constructor
          · rw [hchain]
            cases hr : lastStoredWrite restOps (seg, 0, fr, kindLen) with
            | none => exact Or.inl (by simpa using hlennone)
            | some v =>
              rcases ihres.1 with h0 | h0
              · rw [hr] at h0
                simp at h0
              · rw [hr] at h0
                exact Or.inr (by simpa using h0)
          · intro hmem
            have hmem' : (name, tokens) ∈ rest := by
              rcases List.mem_cons.1 hmem with heq | h'
              · exfalso
                apply hfrn
                have hn : name = n := congrArg Prod.fst heq
                rw [← hn] at hlook
                rw [hfr] at hlook
                exact (Option.some_inj.1 hlook).symm
              · exact h'
            have hres2 := ihres.2 hmem'
            rw [hchain, hres2]
            cases hv : lenValueOpt tokens with
            | some v => rfl
            | none => simpa [hv] using hlennone

/-! ## Integer square root and the length formula (C8) -/

theorem sqrtAux_sq_le (n : Nat) : ∀ k, sqrtAux n k * sqrtAux n k ≤ n := by
  intro k
  induction k with
  | zero => simp [sqrtAux]
  | succ k ih =>
    rw [sqrtAux]
    by_cases h : (k + 1) * (k + 1) ≤ n
    · rw [if_pos h]
      exact h
    · rw [if_neg h]
      exact ih

theorem le_sqrtAux (n : Nat) : ∀ k j, j ≤ k → j * j ≤ n → j ≤ sqrtAux n k := by
  intro k
  induction k with
  | zero => intro j hj _; simpa [sqrtAux] using hj
  | succ k ih =>
    intro j hj hsq
    rw [sqrtAux]
    by_cases h : (k + 1) * (k + 1) ≤ n
    · rw [if_pos h]
      exact hj
    · rw [if_neg h]
      refine ih j ?_ hsq
      rcases Nat.lt_or_ge j (k + 1) with hlt | hge
      · omega
      · exact absurd (le_trans (Nat.mul_le_mul hge hge) hsq) h

theorem natSqrt_eq (n : Nat) : natSqrt n = Nat.sqrt n :=
  le_antisymm (Nat.le_sqrt.2 (sqrtAux_sq_le n n))
    (le_sqrtAux n n (Nat.sqrt n) (Nat.sqrt_le_self n) (Nat.sqrt_le n))

/-- The executable squashed length equals the exact-real formula of the
code, `clamp(trunc((√t − 1)·3), 0, 255)` (truncation toward zero, realized
as the integer `max 0 (min 255 ⌊·⌋)` since the only negative value, at
`t = 0`, clamps to zero). -/
theorem fieldLengthByte_floor (t : Nat) :
    (fieldLengthByte t : Int) = max 0 (min 255 ⌊(Real.sqrt t - 1) * 3⌋) := by
  have h9 : Real.sqrt ((9 * t : Nat) : ℝ) = 3 * Real.sqrt t := by
    push_cast
    rw [show ((9 : ℝ) * t) = 3 ^ 2 * t by norm_num,
      Real.sqrt_mul (by positivity) (t : ℝ), Real.sqrt_sq (by norm_num)]
  have he : (Real.sqrt t - 1) * 3 = Real.sqrt ((9 * t : Nat) : ℝ) - ((3 : ℤ) : ℝ) := by
    rw [h9]
    push_cast
    ring
  have hfl : (⌊(Real.sqrt t - 1) * 3⌋ : Int) = (Nat.sqrt (9 * t) : Int) - 3 := by
    rw [he, Int.floor_sub_int, Real.floor_real_sqrt_eq_nat_sqrt]
  rw [hfl]
  unfold fieldLengthByte
  rw [natSqrt_eq]
  omega

/-! ## The pipeline's `"len"` write (C8) -/

theorem storedFieldOps_len_none (schema : Schema) (seg ord : Nat) :
    ∀ (fields : List (String × FieldValue)) (op : StoreOp),
      op ∈ storedFieldOps schema seg ord fields →
      ∀ (s o f : Nat), storedWriteAt op (s, o, f, kindLen) = none := by
  intro fields
  induction fields with
  | nil => intro op hop; simp [storedFieldOps] at hop
  | cons p rest ih =>
    intro op hop s o f
    obtain ⟨n, v⟩ := p
    cases hlook : schema.get_field_by_name n with
    | none =>
      rw [storedFieldOps, hlook] at hop
      exact ih op hop s o f
    | some fr' =>
      rw [storedFieldOps, hlook] at hop
      rcases List.mem_cons.1 hop with rfl | hop'
      · show (if ((seg, ord, fr', kindVal) : Nat × Nat × Nat × List Nat)
            = (s, o, f, kindLen) then some v.to_bytes else none) = none
        rw [if_neg]
        intro hcontra
        exact kindVal_ne_kindLen (congrArg (fun q => q.2.2.2) hcontra)
      · exact ih op hop' s o f

/-- **C8** (corrected).  The `"len"` byte the pipeline stores for an indexed
field of `t` tokens is `clamp(trunc((√t − 1)·3), 0, 255)` — truncation, not
rounding — the key being omitted when the value is 0, so a zero byte is
never written. -/
theorem c8_field_length_truncates (schema : Schema) (st : Store) (doc : Doc)
    (mid fin : Store) (name : String) (tokens : List Nat) (fr : Nat)
    (hok : insertOrUpdateDocument schema st doc = .ok mid fin)
    (hmem : (name, tokens) ∈ doc.indexedFields)
    (hfr : schema.get_field_by_name name = some fr)
    (huniq : ∀ p ∈ doc.indexedFields,
      schema.get_field_by_name p.1 = some fr → p = (name, tokens))
    (hwf : ∀ e ∈ st.stored, e.1.1 < st.nextSegmentId) :
    alGet fin.stored (st.nextSegmentId, 0, fr, kindLen) = lenValueOpt tokens ∧
    alGet fin.stored (st.nextSegmentId, 0, fr, kindLen) ≠ some [0] ∧
    (fieldLengthByte tokens.length : Int)
      = max 0 (min 255 ⌊(Real.sqrt (tokens.length : ℝ) - 1) * 3⌋) := by
  obtain ⟨idxOps, hidx, hmid, hfin⟩ := insert_ok_elim schema st doc mid fin hok
  have hidxlen := (idxOps_len_lookup schema st.nextSegmentId name tokens fr hfr
    doc.indexedFields idxOps hidx huniq).2 hmem
  have hstored0 : alGet st.stored (st.nextSegmentId, 0, fr, kindLen) = none := by
    refine alGet_eq_none _ _ fun e he heq => ?_
    have h1 := hwf e he
    have h2 : e.1.1 = st.nextSegmentId := congrArg (fun q => q.1) heq
    omega
  have hsfo : lastStoredWrite
      (storedFieldOps schema st.nextSegmentId 0 doc.storedFields)
      (st.nextSegmentId, 0, fr, kindLen) = none :=
    lastStoredWrite_eq_none _ _ fun op hop =>
      storedFieldOps_len_none schema st.nextSegmentId 0 doc.storedFields op hop
        st.nextSegmentId 0 fr
  have hbatch : lastStoredWrite
      (StoreOp.putActive st.nextSegmentId :: idxOps
        ++ storedFieldOps schema st.nextSegmentId 0 doc.storedFields
        ++ [StoreOp.mergeStat st.nextSegmentId (asciiBytes "total_docs") 1])
      (st.nextSegmentId, 0, fr, kindLen) = lenValueOpt tokens := by
    have hstat1 : lastStoredWrite
        [StoreOp.mergeStat st.nextSegmentId (asciiBytes "total_docs") 1]
        (st.nextSegmentId, 0, fr, kindLen) = none := rfl
    show (match lastStoredWrite (idxOps
        ++ storedFieldOps schema st.nextSegmentId 0 doc.storedFields
        ++ [StoreOp.mergeStat st.nextSegmentId (asciiBytes "total_docs") 1])
        (st.nextSegmentId, 0, fr, kindLen) with
      | some v => some v
      | none => storedWriteAt (StoreOp.putActive st.nextSegmentId)
          (st.nextSegmentId, 0, fr, kindLen)) = lenValueOpt tokens
    rw [lastStoredWrite_append, hstat1, lastStoredWrite_append, hsfo, hidxlen]
    cases lenValueOpt tokens <;> rfl
  have hlookup : alGet fin.stored (st.nextSegmentId, 0, fr, kindLen)
      = lenValueOpt tokens := by
    rw [hfin, insertOrReplaceKey_stored, hmid, applyBatch_stored_alGet, hbatch]
    cases hv : lenValueOpt tokens with
    | some v => rfl
    | none => simpa using hstored0
  refine ⟨hlookup, ?_, fieldLengthByte_floor tokens.length⟩
  rw [hlookup]
  unfold lenValueOpt
  by_cases hz : fieldLengthByte tokens.length = 0
  · rw [if_pos hz]
    simp
  · rw [if_neg hz]
    simp [hz]

/-- Counterexample to **C8**: a field with 5 tokens.  The code stores the
byte 3 (truncation of `(√5 − 1)·3 ≈ 3.708`), while the claim's formula
`clamp(round((√5 − 1)·3), 0, 255)` yields 4. -/
theorem c8_code_truncates_spec_rounds :
    alGet ((insertOrUpdateDocument ((Schema.new).add_field "title" FieldType.text 1).2
        Store.empty
        { key := [107], indexedFields := [("title", [1, 2, 3, 4, 5])],
          storedFields := [] }).finStore).stored
        (0, 0, 1, kindLen) = some [3] ∧
    round ((Real.sqrt 5 - 1) * 3) = (4 : ℤ) ∧
    ((3 : Int) ≠ 4) := by
  refine ⟨by decide, ?_, by decide⟩
  have hl : (13 / 6 : ℝ) ≤ Real.sqrt 5 :=
    (Real.le_sqrt (by norm_num) (by norm_num)).2 (by norm_num)
  have hu : Real.sqrt 5 < 5 / 2 :=
    (Real.sqrt_lt' (by norm_num)).2 (by norm_num)
  rw [round_eq, Int.floor_eq_iff]
  constructor
  · push_cast
    linarith
  · push_cast
    linarith

/-- Witness for C8: inserting a document with an empty `"title"` token
stream (0 tokens, so the `"len"` key is omitted). -/
theorem c8_field_length_truncates_witness :
    (insertOrUpdateDocument ((Schema.new).add_field "title" FieldType.text 1).2
        Store.empty
        { key := [107], indexedFields := [("title", [])], storedFields := [] }
      = .ok
        (insertOrUpdateDocument ((Schema.new).add_field "title" FieldType.text 1).2
          Store.empty
          { key := [107], indexedFields := [("title", [])],
            storedFields := [] }).midStore
        (insertOrUpdateDocument ((Schema.new).add_field "title" FieldType.text 1).2
          Store.empty
          { key := [107], indexedFields := [("title", [])],
            storedFields := [] }).finStore) ∧
    (("title", ([] : List Nat))
      ∈ ([("title", ([] : List Nat))] : List (String × List Nat))) ∧
    ((((Schema.new).add_field "title" FieldType.text 1).2).get_field_by_name "title"
      = some 1) ∧
    (∀ p ∈ ([("title", ([] : List Nat))] : List (String × List Nat)),
      (((Schema.new).add_field "title" FieldType.text 1).2).get_field_by_name p.1
          = some 1 →
        p = ("title", ([] : List Nat))) ∧
    (∀ e ∈ (Store.empty).stored, e.1.1 < (Store.empty).nextSegmentId) ∧
    (alGet (insertOrUpdateDocument ((Schema.new).add_field "title" FieldType.text 1).2
          Store.empty
          { key := [107], indexedFields := [("title", [])],
            storedFields := [] }).finStore.stored
        ((Store.empty).nextSegmentId, 0, 1, kindLen) = lenValueOpt [] ∧
      alGet (insertOrUpdateDocument ((Schema.new).add_field "title" FieldType.text 1).2
          Store.empty
          { key := [107], indexedFields := [("title", [])],
            storedFields := [] }).finStore.stored
        ((Store.empty).nextSegmentId, 0, 1, kindLen) ≠ some [0] ∧
      (fieldLengthByte ([] : List Nat).length : Int)
        = max 0 (min 255 ⌊(Real.sqrt (([] : List Nat).length : ℝ) - 1) * 3⌋)) :=
  ⟨by decide, by decide, by decide, by decide, by decide,
    c8_field_length_truncates ((Schema.new).add_field "title" FieldType.text 1).2
      Store.empty
      { key := [107], indexedFields := [("title", [])], storedFields := [] }
      (insertOrUpdateDocument ((Schema.new).add_field "title" FieldType.text 1).2
        Store.empty
        { key := [107], indexedFields := [("title", [])],
          storedFields := [] }).midStore
      (insertOrUpdateDocument ((Schema.new).add_field "title" FieldType.text 1).2
        Store.empty
        { key := [107], indexedFields := [("title", [])],
          storedFields := [] }).finStore
      "title" [] 1 (by decide) (by decide) (by decide) (by decide) (by decide)⟩

end Kite
